import Mathlib

/-!
Verification of the bounded-horizon production-optimization search
(the "robot factory" optimizer, `src/2022/day-19/src/main.rs`).

The Rust source is shallowly embedded: `i32` values become `Int`
(Rust's truncating `/` becomes `Int.tdiv`), `HashMap<Robot, i32>` becomes a
record with one `Option Int` entry per key (`RobotMap`), and the global
string-keyed memo cache becomes an explicitly threaded binary tree keyed by
the structured search state.  The recursive search is defined through a
structural fuel parameter instantiated with `minutes_left.toNat`, which is
exactly the recursion-depth bound of the source.
-/

namespace Day19

/-- Embedding of the source enum `Robot`: a robot worker kind, one per
collectable resource. -/
inductive Robot
  | Ore
  | Clay
  | Obsidian
  | Geode
  deriving DecidableEq

/-- Embedding of `Robot::all_types` (source lines 16-20): all robot kinds in
the order the search loop iterates them. -/
def Robot.all_types : List Robot :=
  [Robot.Ore, Robot.Clay, Robot.Obsidian, Robot.Geode]

/-- Embedding of the struct `Storage` (source lines 24-30): the count of each
resource currently held. -/
structure Storage where
  ore : Int
  clay : Int
  obsidian : Int
  geode : Int
  deriving DecidableEq

/-- Embedding of `Storage::new` (source lines 34-41): zero of each resource. -/
def Storage.new : Storage :=
  { ore := 0, clay := 0, obsidian := 0, geode := 0 }

/-- Embedding of `HashMap<Robot, i32>`: one optional entry per possible key.
It is used both for the robot counts and for a blueprint's `max_spend` map. -/
structure RobotMap where
  ore : Option Int
  clay : Option Int
  obsidian : Option Int
  geode : Option Int
  deriving DecidableEq

/-- Lookup of a key in a `RobotMap` (Rust `HashMap::get`). -/
def RobotMap.get (m : RobotMap) : Robot → Option Int
  | Robot.Ore => m.ore
  | Robot.Clay => m.clay
  | Robot.Obsidian => m.obsidian
  | Robot.Geode => m.geode

/-- One entry update of `robots.entry(t).and_modify(|c| *c += 1).or_insert(1)`
(source lines 301-304). -/
def bump : Option Int → Option Int
  | some count => some (count + 1)
  | none => some 1

/-- Embedding of `robots.entry(robot_type).and_modify(..).or_insert(1)`
(source lines 301-304): increment the entry of `robot` or insert `1`. -/
def RobotMap.add_robot (m : RobotMap) : Robot → RobotMap
  | Robot.Ore => { m with ore := bump m.ore }
  | Robot.Clay => { m with clay := bump m.clay }
  | Robot.Obsidian => { m with obsidian := bump m.obsidian }
  | Robot.Geode => { m with geode := bump m.geode }

/-- Embedding of `Storage::gather` (source lines 45-52): add
`count * iterations` for every robot entry present in the map.  The Rust loop
iterates the hash map in an unspecified order; since each key updates its own
field by an addition, the result is this order-independent record. -/
def Storage.gather (s : Storage) (robots : RobotMap) (iterations : Int) : Storage :=
  { ore := s.ore + (robots.ore.getD 0) * iterations,
    clay := s.clay + (robots.clay.getD 0) * iterations,
    obsidian := s.obsidian + (robots.obsidian.getD 0) * iterations,
    geode := s.geode + (robots.geode.getD 0) * iterations }

/-- Embedding of the struct `Blueprint` (source lines 57-63): per-robot build
costs plus the derived `max_spend` map. -/
structure Blueprint where
  ore : Int
  clay : Int
  obsidian : Int × Int
  geode : Int × Int
  max_spend : RobotMap
  deriving DecidableEq

/-- Embedding of the record construction in `Blueprint::new` (source lines
116-127), after the text of one input line has been parsed into the six cost
numbers: `obsidian` costs `(obsidian_ore, obsidian_clay)`, `geode` costs
`(geode_ore, geode_obsidian)`, and `max_spend` holds, for each of the three
base resources, the maximum amount any single recipe spends of it. -/
def Blueprint.make (ore clay obsidian_ore obsidian_clay geode_ore geode_obsidian : Int) :
    Blueprint :=
  { ore := ore,
    clay := clay,
    obsidian := (obsidian_ore, obsidian_clay),
    geode := (geode_ore, geode_obsidian),
    max_spend :=
      { ore := some (max (max (max ore clay) obsidian_ore) geode_ore),
        clay := some obsidian_clay,
        obsidian := some geode_obsidian,
        geode := none } }

/-- Embedding of `Blueprint::get_ore_cost` (source lines 131-138). -/
def Blueprint.get_ore_cost (b : Blueprint) : Robot → Int
  | Robot.Ore => b.ore
  | Robot.Clay => b.clay
  | Robot.Obsidian => b.obsidian.1
  | Robot.Geode => b.geode.1

/-- Embedding of `Blueprint::time_to_next_robot` (source lines 143-173).
Rust's truncating `i32` division is `Int.tdiv`.  The result is `none` when a
robot kind required by the recipe has no entry in the `robots` map. -/
def Blueprint.time_to_next_robot (b : Blueprint) (robot : Robot) (robots : RobotMap)
    (storage : Storage) : Option Int :=
  let ore_cost := b.get_ore_cost robot
  match robots.get Robot.Ore with
  | none => none
  | some count =>
    let ore_time := max 0 (Int.tdiv (ore_cost - storage.ore + count - 1) count)
    match robot with
    | Robot.Ore => some ore_time
    | Robot.Clay => some ore_time
    | Robot.Obsidian =>
      match robots.get Robot.Clay with
      | none => none
      | some count2 =>
        some (max ore_time (Int.tdiv (b.obsidian.2 - storage.clay + count2 - 1) count2))
    | Robot.Geode =>
      match robots.get Robot.Obsidian with
      | none => none
      | some count2 =>
        some (max ore_time (Int.tdiv (b.geode.2 - storage.obsidian + count2 - 1) count2))

/-- One entry of `Blueprint::remove_extra_robots`: a present robot count is
clamped to `max_spend.get(robot).unwrap_or(&0)`; an absent entry stays absent. -/
def clamp_entry : Option Int → Option Int → Option Int
  | some count, spend => some (min count (spend.getD 0))
  | none, _ => none

/-- Embedding of `Blueprint::remove_extra_robots` (source lines 177-184):
every non-Geode robot entry present in the map is clamped to the blueprint's
maximum per-minute spend of that resource. -/
def Blueprint.remove_extra_robots (b : Blueprint) (robots : RobotMap) : RobotMap :=
  { ore := clamp_entry robots.ore b.max_spend.ore,
    clay := clamp_entry robots.clay b.max_spend.clay,
    obsidian := clamp_entry robots.obsidian b.max_spend.obsidian,
    geode := robots.geode }

/-- One entry of `Blueprint::remove_extra_resources`: when `max_spend` has an
entry `spend` for this resource, the stock is clamped to
`spend * iterations - (iterations - 1) * robots.get(type).unwrap_or(&0)`. -/
def clamp_stock (stock : Int) (spend : Option Int) (count : Option Int)
    (iterations : Int) : Int :=
  match spend with
  | some spend => min stock (spend * iterations - (iterations - 1) * (count.getD 0))
  | none => stock

/-- Embedding of `Blueprint::remove_extra_resources` (source lines 188-217)
restricted to the three base-resource arms of its match.  The `Robot::Geode`
arm of the source is `panic!("Shouldn't happen")`; that arm is modelled by
`Blueprint.remove_extra_resources_checked` below and is proved unreachable for
every blueprint built by `Blueprint.make`. -/
def Blueprint.remove_extra_resources (b : Blueprint) (robots : RobotMap)
    (storage : Storage) (iterations : Int) : Storage :=
  { ore := clamp_stock storage.ore b.max_spend.ore robots.ore iterations,
    clay := clamp_stock storage.clay b.max_spend.clay robots.clay iterations,
    obsidian := clamp_stock storage.obsidian b.max_spend.obsidian robots.obsidian iterations,
    geode := storage.geode }

/-- Faithful model of `Blueprint::remove_extra_resources` including its panic
arm: iterating the `max_spend` map reaches `panic!("Shouldn't happen")` exactly
when `max_spend` has a `Geode` entry, modelled as `none`. -/
def Blueprint.remove_extra_resources_checked (b : Blueprint) (robots : RobotMap)
    (storage : Storage) (iterations : Int) : Option Storage :=
  match b.max_spend.geode with
  | some _ => none
  | none => some (b.remove_extra_resources robots storage iterations)

/-- Embedding of `Blueprint::pay_for_robot` (source lines 221-234). -/
def Blueprint.pay_for_robot (b : Blueprint) (storage : Storage) : Robot → Storage
  | Robot.Ore => { storage with ore := storage.ore - b.ore }
  | Robot.Clay => { storage with ore := storage.ore - b.clay }
  | Robot.Obsidian =>
    { storage with ore := storage.ore - b.obsidian.1, clay := storage.clay - b.obsidian.2 }
  | Robot.Geode =>
    { storage with ore := storage.ore - b.geode.1, obsidian := storage.obsidian - b.geode.2 }

/-- Embedding of source lines 257-263: the base candidate of one search step,
the geodes already in storage plus what the present Geode robots would crack in
the remaining time. -/
def idle_geodes (minutes_left : Int) (robots : RobotMap) (storage : Storage) : Int :=
  storage.geode +
    match robots.geode with
    | some geode_robots => geode_robots * minutes_left
    | none => 0

/-- Embedding of the skip test of source lines 267-275: a robot kind is
ignored when both its `max_spend` entry and its current count are present and
`count >= spend`. -/
def Blueprint.at_spend_cap (b : Blueprint) (robot : Robot) (robots : RobotMap) : Bool :=
  match b.max_spend.get robot, robots.get robot with
  | some spend, some count => decide (spend ≤ count)
  | _, _ => false

/-- Embedding of the state built for one recursive call (source lines
290-310): gather for `wait_time + 1` minutes, pay for the robot, add it to the
map, then apply both trims, `remove_extra_robots` and
`remove_extra_resources`. -/
def Blueprint.child_state (b : Blueprint) (robots : RobotMap) (storage : Storage)
    (robot_type : Robot) (wait_time remaining_time : Int) : RobotMap × Storage :=
  let storage_clone := storage.gather robots (wait_time + 1)
  let storage_clone := b.pay_for_robot storage_clone robot_type
  let robots_clone := robots.add_robot robot_type
  let robots_clone := b.remove_extra_robots robots_clone
  let storage_clone := b.remove_extra_resources robots_clone storage_clone remaining_time
  (robots_clone, storage_clone)

/-- The state built for one recursive call when both pruning trims are
disabled: gather, pay and add the robot, but keep every robot and every
resource. -/
def Blueprint.child_state_untrimmed (b : Blueprint) (robots : RobotMap) (storage : Storage)
    (robot_type : Robot) (wait_time remaining_time : Int) : RobotMap × Storage :=
  let storage_clone := storage.gather robots (wait_time + 1)
  let storage_clone := b.pay_for_robot storage_clone robot_type
  (robots.add_robot robot_type, storage_clone)

/-- Embedding of the `for robot_type in Robot::all_types()` loop of
`Blueprint::max_geodes` (source lines 266-315), parameterized by the child
state builder `child` (the two trims enabled or disabled) and by the child
evaluator `f` (the recursive call).  Skipped iterations (`continue`) keep the
accumulator; viable ones take the maximum with the child's value. -/
def Blueprint.search_loop (b : Blueprint) (child : Robot → Int → Int → RobotMap × Storage)
    (f : Int → RobotMap → Storage → Int) (minutes_left : Int) (robots : RobotMap)
    (storage : Storage) : List Robot → Int → Int
  | [], acc => acc
  | robot_type :: rest, acc =>
    if b.at_spend_cap robot_type robots then
      b.search_loop child f minutes_left robots storage rest acc
    else
      match b.time_to_next_robot robot_type robots storage with
      | none => b.search_loop child f minutes_left robots storage rest acc
      | some wait_time =>
        let remaining_time := minutes_left - wait_time - 1
        if remaining_time ≤ 0 then
          b.search_loop child f minutes_left robots storage rest acc
        else
          let st := child robot_type wait_time remaining_time
          b.search_loop child f minutes_left robots storage rest
            (max acc (f remaining_time st.1 st.2))

/-- The recursion of `Blueprint::max_geodes` without the memo cache,
parameterized by the child state builder and by the exploration order, with a
structural fuel argument.  Fuel `0` is only ever reached with
`minutes_left ≤ 0`, where the loop is skipped entirely, so its value is the
`minutes_left == 0` base case or the idle candidate. -/
def Blueprint.search_aux (b : Blueprint)
    (child : RobotMap → Storage → Robot → Int → Int → RobotMap × Storage)
    (order : List Robot) : Nat → Int → RobotMap → Storage → Int
  | 0, minutes_left, robots, storage =>
    if minutes_left = 0 then storage.geode else idle_geodes minutes_left robots storage
  | fuel + 1, minutes_left, robots, storage =>
    if minutes_left = 0 then storage.geode
    else
      b.search_loop (child robots storage) (b.search_aux child order fuel) minutes_left
        robots storage order (idle_geodes minutes_left robots storage)

/-- The no-cache variant of `Blueprint::max_geodes`: the recursion of source
lines 238-321 with both trims enabled, without consulting the memo store.  The
fuel is `minutes_left.toNat`, the recursion-depth bound of the source. -/
def Blueprint.max_geodes_nocache (b : Blueprint) (minutes_left : Int) (robots : RobotMap)
    (storage : Storage) : Int :=
  b.search_aux b.child_state Robot.all_types minutes_left.toNat minutes_left robots storage

/-- The no-cache, no-trims variant of `Blueprint::max_geodes`: the recursion
with `remove_extra_robots` and `remove_extra_resources` both disabled. -/
def Blueprint.max_geodes_untrimmed (b : Blueprint) (minutes_left : Int) (robots : RobotMap)
    (storage : Storage) : Int :=
  b.search_aux b.child_state_untrimmed Robot.all_types minutes_left.toNat minutes_left
    robots storage

/-- The no-cache variant of `Blueprint::max_geodes` with the exploration order
of the four robot kinds as a parameter (the source fixes it to
`Robot::all_types`). -/
def Blueprint.max_geodes_order (b : Blueprint) (order : List Robot) (minutes_left : Int)
    (robots : RobotMap) (storage : Storage) : Int :=
  b.search_aux b.child_state order minutes_left.toNat minutes_left robots storage

/-- The memoization key of `Blueprint::max_geodes` (source line 250): the
source formats `minutes_left`, the blueprint, the robots map and the storage
into a string; since the blueprint is fixed over one search, the key is the
remaining state triple. -/
structure SearchKey where
  minutes_left : Int
  robots : RobotMap
  storage : Storage
  deriving DecidableEq

/-- Three-way comparison of integers used to order memo keys. -/
def cmpInt (a b : Int) : Ordering :=
  if a < b then Ordering.lt else if b < a then Ordering.gt else Ordering.eq

/-- Three-way comparison of optional integers: an absent entry sorts first. -/
def cmpOptInt : Option Int → Option Int → Ordering
  | none, none => Ordering.eq
  | none, some _ => Ordering.lt
  | some _, none => Ordering.gt
  | some a, some b => cmpInt a b

/-- Three-way comparison of memo keys, field by field. -/
def SearchKey.cmp (k₁ k₂ : SearchKey) : Ordering :=
  (cmpInt k₁.minutes_left k₂.minutes_left).then
    ((cmpOptInt k₁.robots.ore k₂.robots.ore).then
      ((cmpOptInt k₁.robots.clay k₂.robots.clay).then
        ((cmpOptInt k₁.robots.obsidian k₂.robots.obsidian).then
          ((cmpOptInt k₁.robots.geode k₂.robots.geode).then
            ((cmpInt k₁.storage.ore k₂.storage.ore).then
              ((cmpInt k₁.storage.clay k₂.storage.clay).then
                ((cmpInt k₁.storage.obsidian k₂.storage.obsidian).then
                  (cmpInt k₁.storage.geode k₂.storage.geode))))))))

/-- The memo store (source lines 74-87): the global `HashMap<String, i32>`
cache is modelled as an explicitly threaded search tree from the structured
key to the cached result. -/
inductive Memo
  | leaf : Memo
  | node : Memo → SearchKey → Int → Memo → Memo

/-- Embedding of `check_cache` (source lines 78-80). -/
def Memo.find : Memo → SearchKey → Option Int
  | Memo.leaf, _ => none
  | Memo.node l k v r, key =>
    match key.cmp k with
    | Ordering.lt => l.find key
    | Ordering.gt => r.find key
    | Ordering.eq => some v

/-- Embedding of `update_cache` (source lines 83-87). -/
def Memo.insert : Memo → SearchKey → Int → Memo
  | Memo.leaf, key, value => Memo.node Memo.leaf key value Memo.leaf
  | Memo.node l k v r, key, value =>
    match key.cmp k with
    | Ordering.lt => Memo.node (l.insert key value) k v r
    | Ordering.gt => Memo.node l k v (r.insert key value)
    | Ordering.eq => Memo.node l key value r

/-- The robot-kind loop of `Blueprint::max_geodes` with the memo store
threaded through the recursive calls, exactly as the source's global cache
persists across sibling branches. -/
def Blueprint.search_loop_memo (b : Blueprint)
    (f : Int → RobotMap → Storage → Memo → Int × Memo) (minutes_left : Int)
    (robots : RobotMap) (storage : Storage) : List Robot → Int × Memo → Int × Memo
  | [], acc => acc
  | robot_type :: rest, acc =>
    if b.at_spend_cap robot_type robots then
      b.search_loop_memo f minutes_left robots storage rest acc
    else
      match b.time_to_next_robot robot_type robots storage with
      | none => b.search_loop_memo f minutes_left robots storage rest acc
      | some wait_time =>
        let remaining_time := minutes_left - wait_time - 1
        if remaining_time ≤ 0 then
          b.search_loop_memo f minutes_left robots storage rest acc
        else
          let st := b.child_state robots storage robot_type wait_time remaining_time
          let res := f remaining_time st.1 st.2 acc.2
          b.search_loop_memo f minutes_left robots storage rest (max acc.1 res.1, res.2)

/-- Embedding of `Blueprint::max_geodes` (source lines 238-321) with a
structural fuel argument: return the geodes in storage when no time is left,
otherwise answer from the cache when the key is present, and otherwise run the
robot-kind loop and record the result under the key before returning it. -/
def Blueprint.max_geodes_memo_aux (b : Blueprint) :
    Nat → Int → RobotMap → Storage → Memo → Int × Memo
  | 0, minutes_left, robots, storage, memo =>
    (if minutes_left = 0 then storage.geode else idle_geodes minutes_left robots storage,
      memo)
  | fuel + 1, minutes_left, robots, storage, memo =>
    if minutes_left = 0 then (storage.geode, memo)
    else
      let key : SearchKey := ⟨minutes_left, robots, storage⟩
      match memo.find key with
      | some result => (result, memo)
      | none =>
        let res := b.search_loop_memo (b.max_geodes_memo_aux fuel) minutes_left robots
          storage Robot.all_types (idle_geodes minutes_left robots storage, memo)
        (res.1, res.2.insert key res.1)

/-- Embedding of `Blueprint::max_geodes` as called by `main` (source lines
333-364): the search is run with the memo store, starting from an empty cache,
and the maximum geode count is returned. -/
def Blueprint.max_geodes (b : Blueprint) (minutes_left : Int) (robots : RobotMap)
    (storage : Storage) : Int :=
  (b.max_geodes_memo_aux minutes_left.toNat minutes_left robots storage Memo.leaf).1

/-- The starting robot map of `main` (source line 338): one Ore robot. -/
def starting_robots : RobotMap :=
  { ore := some 1, clay := none, obsidian := none, geode := none }

/-- State of the optimistic relaxation used as an admissible upper bound for
evaluating the search: clay, obsidian and geode stocks and production rates
(ore is treated as unlimited). -/
structure SimState where
  clay : Int
  clay_robots : Int
  obsidian : Int
  obsidian_robots : Int
  geode : Int
  geode_robots : Int
  deriving DecidableEq

/-- One minute of the optimistic relaxation with obsidian-recipe clay cost
`Ko` and geode-recipe obsidian cost `Kg`: every resource is gathered at the
current rates, a clay robot is always built, and an obsidian robot and a
geode robot are each built whenever the start-of-minute stock affords their
tracked cost. -/
def sim_step (Ko Kg : Int) (s : SimState) : SimState :=
  { clay := s.clay + s.clay_robots - (if Ko ≤ s.clay then Ko else 0),
    clay_robots := s.clay_robots + 1,
    obsidian := s.obsidian + s.obsidian_robots - (if Kg ≤ s.obsidian then Kg else 0),
    obsidian_robots := s.obsidian_robots + (if Ko ≤ s.clay then 1 else 0),
    geode := s.geode + s.geode_robots,
    geode_robots := s.geode_robots + (if Kg ≤ s.obsidian then 1 else 0) }

/-- The geode count of the optimistic relaxation after `k` minutes. -/
def sim_geodes (Ko Kg : Int) : Nat → SimState → Int
  | 0, s => s.geode
  | k + 1, s => sim_geodes Ko Kg k (sim_step Ko Kg s)

/-- The projection of a search state onto the relaxation's state. -/
def sim_of (robots : RobotMap) (storage : Storage) : SimState :=
  { clay := storage.clay, clay_robots := robots.clay.getD 0,
    obsidian := storage.obsidian, obsidian_robots := robots.obsidian.getD 0,
    geode := storage.geode, geode_robots := robots.geode.getD 0 }

/-- The admissible upper bound: geodes of the optimistic relaxation run for
the remaining minutes. -/
def Blueprint.sim_bound (b : Blueprint) (minutes_left : Int) (robots : RobotMap)
    (storage : Storage) : Int :=
  sim_geodes b.obsidian.2 b.geode.2 minutes_left.toNat (sim_of robots storage)

/-- The robot-kind loop of the branch-and-bound evaluator: identical to
`search_loop` except that the running maximum `best` is threaded into the
recursive calls and a branch is skipped when `sim_bound` proves it cannot
beat `best`. -/
def Blueprint.bb_loop (b : Blueprint) (f : Int → RobotMap → Storage → Int → Int)
    (minutes_left : Int) (robots : RobotMap) (storage : Storage) :
    List Robot → Int → Int
  | [], best => best
  | robot_type :: rest, best =>
    if b.at_spend_cap robot_type robots then
      b.bb_loop f minutes_left robots storage rest best
    else
      match b.time_to_next_robot robot_type robots storage with
      | none => b.bb_loop f minutes_left robots storage rest best
      | some wait_time =>
        let remaining_time := minutes_left - wait_time - 1
        if remaining_time ≤ 0 then
          b.bb_loop f minutes_left robots storage rest best
        else
          let st := b.child_state robots storage robot_type wait_time remaining_time
          if b.sim_bound remaining_time st.1 st.2 ≤ best then
            b.bb_loop f minutes_left robots storage rest best
          else
            b.bb_loop f minutes_left robots storage rest
              (f remaining_time st.1 st.2 best)

/-- The branch-and-bound evaluator used to compute `max_geodes_nocache`
cheaply: it returns `max best (max_geodes_nocache ..)`. -/
def Blueprint.bb_aux (b : Blueprint) : Nat → Int → RobotMap → Storage → Int → Int
  | 0, minutes_left, robots, storage, best =>
    if minutes_left = 0 then max best storage.geode
    else max best (idle_geodes minutes_left robots storage)
  | fuel + 1, minutes_left, robots, storage, best =>
    if minutes_left = 0 then max best storage.geode
    else
      b.bb_loop (b.bb_aux fuel) minutes_left robots storage Robot.all_types
        (max best (idle_geodes minutes_left robots storage))

/-- Top-level branch-and-bound evaluation. -/
def Blueprint.bb (b : Blueprint) (minutes_left : Int) (robots : RobotMap)
    (storage : Storage) (best : Int) : Int :=
  b.bb_aux minutes_left.toNat minutes_left robots storage best

/-! ### Basic lemmas about the wait-time calculator and the search loop -/

/-- A computed wait time is never negative: the ore term is clamped at `0` and
the other recipes take a maximum with it. -/
theorem Blueprint.wait_nonneg (b : Blueprint) (t : Robot) (r : RobotMap) (s : Storage)
    (w : Int) (h : b.time_to_next_robot t r s = some w) : 0 ≤ w := by
  unfold Blueprint.time_to_next_robot at h
  cases ho : r.get Robot.Ore with
  | none => rw [ho] at h; exact absurd h (by simp)
  | some count =>
    rw [ho] at h
    cases t with
    | Ore => simp at h; omega
    | Clay => simp at h; omega
    | Obsidian =>
      cases hc : r.get Robot.Clay with
      | none => rw [hc] at h; exact absurd h (by simp)
      | some c2 => rw [hc] at h; simp at h; omega
    | Geode =>
      cases hg : r.get Robot.Obsidian with
      | none => rw [hg] at h; exact absurd h (by simp)
      | some c2 => rw [hg] at h; simp at h; omega

/-- With no time left, every branch of the loop is skipped. -/
theorem Blueprint.search_loop_skip (b : Blueprint)
    (child : Robot → Int → Int → RobotMap × Storage) (f : Int → RobotMap → Storage → Int)
    (m : Int) (r : RobotMap) (s : Storage) (hm : m ≤ 0) :
    ∀ l acc, b.search_loop child f m r s l acc = acc := by
  intro l
  induction l with
  | nil => intro acc; rfl
  | cons t rest ih =>
    intro acc
    unfold Blueprint.search_loop
    by_cases hcap : b.at_spend_cap t r
    · simp only [hcap, if_true]; exact ih acc
    · simp only [hcap, if_false]
      cases hw : b.time_to_next_robot t r s with
      | none => exact ih acc
      | some w =>
        have hw0 : 0 ≤ w := b.wait_nonneg t r s w hw
        have : m - w - 1 ≤ 0 := by omega
        simp only [this, if_true]
        exact ih acc

/-- The loop only evaluates `f` at remaining times strictly between `0` and
`minutes_left`, so evaluators agreeing there give equal loops. -/
theorem Blueprint.search_loop_congr (b : Blueprint)
    (child : Robot → Int → Int → RobotMap × Storage)
    (f g : Int → RobotMap → Storage → Int) (m : Int) (r : RobotMap) (s : Storage)
    (hfg : ∀ m' r' s', 0 < m' → m' < m → f m' r' s' = g m' r' s') :
    ∀ l acc, b.search_loop child f m r s l acc = b.search_loop child g m r s l acc := by
  intro l
  induction l with
  | nil => intro acc; rfl
  | cons t rest ih =>
    intro acc
    unfold Blueprint.search_loop
    by_cases hcap : b.at_spend_cap t r
    · simp only [hcap, if_true]; exact ih acc
    · simp only [hcap, if_false]
      cases hw : b.time_to_next_robot t r s with
      | none => exact ih acc
      | some w =>
        have hw0 : 0 ≤ w := b.wait_nonneg t r s w hw
        by_cases hrem : m - w - 1 ≤ 0
        · simp only [hrem, if_true]; exact ih acc
        · simp only [hrem, if_false]
          rw [hfg (m - w - 1) _ _ (by omega) (by omega)]
          exact ih _

/-- Fuel does not matter as long as it is at least `minutes_left.toNat`. -/
theorem Blueprint.search_aux_fuel (b : Blueprint)
    (child : RobotMap → Storage → Robot → Int → Int → RobotMap × Storage)
    (order : List Robot) :
    ∀ fuel m r s, m.toNat ≤ fuel →
      b.search_aux child order fuel m r s = b.search_aux child order m.toNat m r s := by
  intro fuel
  induction fuel using Nat.strong_induction_on with
  | _ fuel ih =>
    intro m r s hm
    match fuel, hm with
    | 0, hm =>
      have : m.toNat = 0 := by omega
      rw [this]
    | fuel + 1, hm =>
      cases hmt : m.toNat with
      | zero =>
        have hm0 : m ≤ 0 := by omega
        by_cases hz : m = 0
        · simp [Blueprint.search_aux, hz]
        · simp only [Blueprint.search_aux, hz, if_false]
          exact b.search_loop_skip _ _ m r s hm0 order _
      | succ k =>
        have hz : ¬ m = 0 := by omega
        have hk : k ≤ fuel := by omega
        simp only [hmt, Blueprint.search_aux, hz, if_false]
        refine b.search_loop_congr _ _ _ m r s ?_ order _
        intro m' r' s' h0 hlt
        have h1 : m'.toNat ≤ fuel := by omega
        have h2 : m'.toNat ≤ k := by omega
        rw [ih fuel (by omega) m' r' s' h1, ih k (by omega) m' r' s' h2]

/-- Unfolding equation of the fuelled search at its canonical fuel. -/
theorem Blueprint.search_aux_top_unfold (b : Blueprint)
    (child : RobotMap → Storage → Robot → Int → Int → RobotMap × Storage)
    (order : List Robot) (m : Int) (r : RobotMap) (s : Storage) :
    b.search_aux child order m.toNat m r s =
      if m = 0 then s.geode
      else
        b.search_loop (child r s)
          (fun m' r' s' => b.search_aux child order m'.toNat m' r' s') m r s order
          (idle_geodes m r s) := by
  by_cases hz : m = 0
  · simp [hz, Blueprint.search_aux]
  · simp only [hz, if_false]
    cases hmt : m.toNat with
    | zero =>
      have hm0 : m ≤ 0 := by omega
      rw [b.search_loop_skip _ _ m r s hm0 order _]
      simp [Blueprint.search_aux, hz]
    | succ k =>
      simp only [Blueprint.search_aux, hz, if_false]
      refine b.search_loop_congr _ _ _ m r s ?_ order _
      intro m' r' s' h0 hlt
      exact b.search_aux_fuel child order k m' r' s' (by omega)

/-- Unfolding equation of the no-cache search. -/
theorem Blueprint.max_geodes_nocache_unfold (b : Blueprint) (m : Int) (r : RobotMap)
    (s : Storage) :
    b.max_geodes_nocache m r s =
      if m = 0 then s.geode
      else
        b.search_loop (b.child_state r s)
          (fun m' r' s' => b.max_geodes_nocache m' r' s') m r s Robot.all_types
          (idle_geodes m r s) :=
  b.search_aux_top_unfold b.child_state Robot.all_types m r s

/-- Unfolding equation of the no-cache no-trims search. -/
theorem Blueprint.max_geodes_untrimmed_unfold (b : Blueprint) (m : Int) (r : RobotMap)
    (s : Storage) :
    b.max_geodes_untrimmed m r s =
      if m = 0 then s.geode
      else
        b.search_loop (b.child_state_untrimmed r s)
          (fun m' r' s' => b.max_geodes_untrimmed m' r' s') m r s Robot.all_types
          (idle_geodes m r s) :=
  b.search_aux_top_unfold b.child_state_untrimmed Robot.all_types m r s

/-- The loop only ever increases its accumulator. -/
theorem Blueprint.le_search_loop (b : Blueprint)
    (child : Robot → Int → Int → RobotMap × Storage) (f : Int → RobotMap → Storage → Int)
    (m : Int) (r : RobotMap) (s : Storage) :
    ∀ l acc, acc ≤ b.search_loop child f m r s l acc := by
  intro l
  induction l with
  | nil => intro acc; exact le_refl acc
  | cons t rest ih =>
    intro acc
    unfold Blueprint.search_loop
    by_cases hcap : b.at_spend_cap t r
    · simp only [hcap, if_true]; exact ih acc
    · simp only [hcap, if_false]
      cases hw : b.time_to_next_robot t r s with
      | none => exact ih acc
      | some w =>
        by_cases hrem : m - w - 1 ≤ 0
        · simp only [hrem, if_true]; exact ih acc
        · simp only [hrem, if_false]
          exact le_trans (le_max_left _ _) (ih _)

/-- A maximum taken with the accumulator distributes out of the loop. -/
theorem Blueprint.search_loop_max (b : Blueprint)
    (child : Robot → Int → Int → RobotMap × Storage) (f : Int → RobotMap → Storage → Int)
    (m : Int) (r : RobotMap) (s : Storage) :
    ∀ l a acc, b.search_loop child f m r s l (max a acc) =
      max a (b.search_loop child f m r s l acc) := by
  intro l
  induction l with
  | nil => intro a acc; rfl
  | cons t rest ih =>
    intro a acc
    unfold Blueprint.search_loop
    by_cases hcap : b.at_spend_cap t r
    · simp only [hcap, if_true]; exact ih a acc
    · simp only [hcap, if_false]
      cases hw : b.time_to_next_robot t r s with
      | none => exact ih a acc
      | some w =>
        by_cases hrem : m - w - 1 ≤ 0
        · simp only [hrem, if_true]; exact ih a acc
        · simp only [hrem, if_false]
          rw [max_assoc]
          exact ih a _

/-! ### Soundness of the memo store -/

/-- The integer comparison is an equality test on its `eq` answer. -/
theorem cmpInt_eq_iff (a b : Int) : cmpInt a b = Ordering.eq ↔ a = b := by
  unfold cmpInt
  by_cases h₁ : a < b
  · simp [h₁]; omega
  · by_cases h₂ : b < a
    · simp [h₁, h₂]; omega
    · simp [h₁, h₂]; omega

/-- The optional-integer comparison is an equality test on its `eq` answer. -/
theorem cmpOptInt_eq_iff (a b : Option Int) : cmpOptInt a b = Ordering.eq ↔ a = b := by
  cases a with
  | none => cases b <;> simp [cmpOptInt]
  | some x =>
    cases b with
    | none => simp [cmpOptInt]
    | some y => simpa [cmpOptInt] using cmpInt_eq_iff x y

/-- `Ordering.then` answers `eq` exactly when both parts do. -/
theorem ordering_then_eq_iff (x y : Ordering) :
    x.then y = Ordering.eq ↔ x = Ordering.eq ∧ y = Ordering.eq := by
  cases x <;> simp [Ordering.then]

/-- The key comparison is an equality test on its `eq` answer. -/
theorem SearchKey.cmp_eq_iff (k₁ k₂ : SearchKey) : k₁.cmp k₂ = Ordering.eq ↔ k₁ = k₂ := by
  obtain ⟨m₁, ⟨a₁, b₁, c₁, d₁⟩, ⟨e₁, f₁, g₁, h₁⟩⟩ := k₁
  obtain ⟨m₂, ⟨a₂, b₂, c₂, d₂⟩, ⟨e₂, f₂, g₂, h₂⟩⟩ := k₂
  simp only [SearchKey.cmp, ordering_then_eq_iff, cmpInt_eq_iff, cmpOptInt_eq_iff,
    SearchKey.mk.injEq, RobotMap.mk.injEq, Storage.mk.injEq]
  tauto

/-- Every entry of the memo tree satisfies `P`. -/
def Memo.OK (P : SearchKey → Int → Prop) : Memo → Prop
  | Memo.leaf => True
  | Memo.node l k v r => Memo.OK P l ∧ P k v ∧ Memo.OK P r

/-- A value found in a tree all of whose entries satisfy `P` satisfies `P` at
the looked-up key. -/
theorem Memo.OK.find {P : SearchKey → Int → Prop} :
    ∀ {t : Memo}, Memo.OK P t → ∀ {k : SearchKey} {v : Int}, t.find k = some v → P k v := by
  intro t
  induction t with
  | leaf => intro _ k v h; exact absurd h (by simp [Memo.find])
  | node l key val r ihl ihr =>
    intro hok k v h
    obtain ⟨hl, hkv, hr⟩ := hok
    unfold Memo.find at h
    cases hc : k.cmp key with
    | lt => rw [hc] at h; exact ihl hl h
    | gt => rw [hc] at h; exact ihr hr h
    | eq =>
      rw [hc] at h
      have hk : k = key := (SearchKey.cmp_eq_iff k key).mp hc
      cases h
      rw [hk]
      exact hkv

/-- Inserting a `P`-respecting entry keeps every entry `P`-respecting. -/
theorem Memo.OK.insert {P : SearchKey → Int → Prop} :
    ∀ {t : Memo}, Memo.OK P t → ∀ {k : SearchKey} {v : Int}, P k v →
      Memo.OK P (t.insert k v) := by
  intro t
  induction t with
  | leaf => intro _ k v hkv; exact ⟨trivial, hkv, trivial⟩
  | node l key val r ihl ihr =>
    intro hok k v hkv
    obtain ⟨hl, hval, hr⟩ := hok
    unfold Memo.insert
    cases hc : k.cmp key with
    | lt => exact ⟨ihl hl hkv, hval, hr⟩
    | gt => exact ⟨hl, hval, ihr hr hkv⟩
    | eq => exact ⟨hl, hkv, hr⟩

/-- A cache entry is good when it stores exactly the no-cache value of the
state its key denotes. -/
def Blueprint.cache_good (b : Blueprint) (k : SearchKey) (v : Int) : Prop :=
  v = b.max_geodes_nocache k.minutes_left k.robots k.storage

/-- The memoized loop computes the plain loop and keeps the cache good, as
long as the child evaluator does so below the current minutes. -/
theorem Blueprint.search_loop_memo_spec (b : Blueprint)
    (f : Int → RobotMap → Storage → Memo → Int × Memo) (m : Int) (r : RobotMap)
    (s : Storage)
    (hf : ∀ m' r' s' memo', 0 < m' → m' < m → Memo.OK b.cache_good memo' →
      (f m' r' s' memo').1 = b.max_geodes_nocache m' r' s' ∧
        Memo.OK b.cache_good (f m' r' s' memo').2) :
    ∀ l acc memo, Memo.OK b.cache_good memo →
      (b.search_loop_memo f m r s l (acc, memo)).1 =
        b.search_loop (b.child_state r s) (fun m' r' s' => b.max_geodes_nocache m' r' s')
          m r s l acc ∧
      Memo.OK b.cache_good (b.search_loop_memo f m r s l (acc, memo)).2 := by
  intro l
  induction l with
  | nil => intro acc memo hok; exact ⟨rfl, hok⟩
  | cons t rest ih =>
    intro acc memo hok
    unfold Blueprint.search_loop_memo Blueprint.search_loop
    by_cases hcap : b.at_spend_cap t r
    · simp only [hcap, if_true]; exact ih acc memo hok
    · simp only [hcap, if_false]
      cases hw : b.time_to_next_robot t r s with
      | none => exact ih acc memo hok
      | some w =>
        have hw0 : 0 ≤ w := b.wait_nonneg t r s w hw
        by_cases hrem : m - w - 1 ≤ 0
        · simp only [hrem, if_true]; exact ih acc memo hok
        · simp only [hrem, if_false, Bool.false_eq_true]
          obtain ⟨hv, hm⟩ := hf (m - w - 1) (b.child_state r s t w (m - w - 1)).1
            (b.child_state r s t w (m - w - 1)).2 memo (by omega) (by omega) hok
          simp only [hv]
          exact ih _ _ hm

/-- Main cache-soundness invariant: with enough fuel and a good cache, the
memoized search returns the no-cache value and leaves the cache good. -/
theorem Blueprint.max_geodes_memo_aux_spec (b : Blueprint) :
    ∀ fuel m r s memo, m.toNat ≤ fuel → Memo.OK b.cache_good memo →
      (b.max_geodes_memo_aux fuel m r s memo).1 = b.max_geodes_nocache m r s ∧
        Memo.OK b.cache_good (b.max_geodes_memo_aux fuel m r s memo).2 := by
  intro fuel
  induction fuel with
  | zero =>
    intro m r s memo hm hok
    have h0 : m.toNat = 0 := by omega
    constructor
    · show (if m = 0 then s.geode else idle_geodes m r s) = b.max_geodes_nocache m r s
      unfold Blueprint.max_geodes_nocache
      rw [h0]
      rfl
    · exact hok
  | succ fuel ih =>
    intro m r s memo hm hok
    by_cases hz : m = 0
    · subst hz
      constructor
      · show s.geode = b.max_geodes_nocache 0 r s
        rw [b.max_geodes_nocache_unfold]
        rfl
      · exact hok
    · simp only [Blueprint.max_geodes_memo_aux, hz, if_false]
      cases hfind : memo.find ⟨m, r, s⟩ with
      | some result =>
        constructor
        · exact hok.find hfind
        · exact hok
      | none =>
        have hloop := b.search_loop_memo_spec (b.max_geodes_memo_aux fuel) m r s
          (fun m' r' s' memo' h0 hlt hok' => ih m' r' s' memo' (by omega) hok')
          Robot.all_types (idle_geodes m r s) memo hok
        constructor
        · rw [hloop.1, b.max_geodes_nocache_unfold, if_neg hz]
        · refine hloop.2.insert ?_
          show _ = b.max_geodes_nocache m r s
          rw [hloop.1, b.max_geodes_nocache_unfold, if_neg hz]

/-- The memoized search from an empty cache computes the no-cache search. -/
theorem Blueprint.max_geodes_eq_nocache (b : Blueprint) (m : Int) (r : RobotMap)
    (s : Storage) : b.max_geodes m r s = b.max_geodes_nocache m r s :=
  (b.max_geodes_memo_aux_spec m.toNat m r s Memo.leaf (le_refl _) trivial).1

/-! ### Reachable-state invariants -/

/-- The `max_spend` map has the shape `Blueprint::new` gives it: the three
base resources map to the maximal per-recipe spend, `Geode` is absent. -/
def Blueprint.well_formed (b : Blueprint) : Prop :=
  b.max_spend.ore = some (max (max (max b.ore b.clay) b.obsidian.1) b.geode.1) ∧
  b.max_spend.clay = some b.obsidian.2 ∧
  b.max_spend.obsidian = some b.geode.2 ∧
  b.max_spend.geode = none

/-- Every blueprint built by `Blueprint.make` is well formed. -/
theorem Blueprint.make_well_formed (ore clay obsidian_ore obsidian_clay geode_ore
    geode_obsidian : Int) :
    (Blueprint.make ore clay obsidian_ore obsidian_clay geode_ore
      geode_obsidian).well_formed :=
  ⟨rfl, rfl, rfl, rfl⟩

/-- All six costs of the blueprint are at least one. -/
def Blueprint.positive (b : Blueprint) : Prop :=
  1 ≤ b.ore ∧ 1 ≤ b.clay ∧ 1 ≤ b.obsidian.1 ∧ 1 ≤ b.obsidian.2 ∧
    1 ≤ b.geode.1 ∧ 1 ≤ b.geode.2

/-- Waiting `w` minutes with `rate` producers, where `w` is at least the
source's rounded-up division, gathers at least the missing amount. -/
theorem tdiv_wait (c s rate w : Int) (hrate : 1 ≤ rate) (hw : 0 ≤ w)
    (h : Int.tdiv (c - s + rate - 1) rate ≤ w) : c ≤ s + rate * w := by
  by_cases hcs : c - s ≤ 0
  · nlinarith
  · set n : Int := c - s + rate - 1 with hn
    have hn0 : 0 ≤ n := by omega
    have hrate0 : 0 ≤ rate := by omega
    have htd : Int.tdiv n rate = n / rate := Int.tdiv_eq_ediv hn0 hrate0
    have hdiv : n / rate ≤ w := by rw [htd] at h; exact h
    have hmod : n % rate < rate := Int.emod_lt_of_pos n (by omega)
    have heq : rate * (n / rate) + n % rate = n := Int.ediv_add_emod n rate
    nlinarith [Int.emod_nonneg n (by omega : rate ≠ 0)]

/-- What a successful wait-time computation guarantees about the ore stock:
after `wait_time + 1` minutes of gathering, the ore cost of the target robot
is covered with at least one ore-robot round to spare. -/
theorem Blueprint.wait_affords_ore (b : Blueprint) (t : Robot) (r : RobotMap) (s : Storage)
    (w co : Int) (hw : b.time_to_next_robot t r s = some w) (hco : r.ore = some co)
    (hco1 : 1 ≤ co) : b.get_ore_cost t ≤ s.ore + co * w := by
  have hw0 : 0 ≤ w := b.wait_nonneg t r s w hw
  unfold Blueprint.time_to_next_robot at hw
  rw [show r.get Robot.Ore = some co from hco] at hw
  have hterm : Int.tdiv (b.get_ore_cost t - s.ore + co - 1) co ≤ w := by
    cases t with
    | Ore => simp at hw; omega
    | Clay => simp at hw; omega
    | Obsidian =>
      cases hc : r.get Robot.Clay with
      | none => rw [hc] at hw; exact absurd hw (by simp)
      | some c2 => rw [hc] at hw; simp at hw; omega
    | Geode =>
      cases hg : r.get Robot.Obsidian with
      | none => rw [hg] at hw; exact absurd hw (by simp)
      | some c2 => rw [hg] at hw; simp at hw; omega
  exact tdiv_wait _ _ _ _ hco1 hw0 hterm

/-- What a successful wait-time computation for an Obsidian robot guarantees
about the clay stock. -/
theorem Blueprint.wait_affords_clay (b : Blueprint) (r : RobotMap) (s : Storage)
    (w cc : Int) (hw : b.time_to_next_robot Robot.Obsidian r s = some w)
    (hcc : r.clay = some cc) (hcc1 : 1 ≤ cc) : b.obsidian.2 ≤ s.clay + cc * w := by
  have hw0 : 0 ≤ w := b.wait_nonneg _ r s w hw
  unfold Blueprint.time_to_next_robot at hw
  cases ho : r.get Robot.Ore with
  | none => rw [ho] at hw; exact absurd hw (by simp)
  | some co =>
    rw [ho, show r.get Robot.Clay = some cc from hcc] at hw
    simp at hw
    exact tdiv_wait _ _ _ _ hcc1 hw0 (by omega)

/-- What a successful wait-time computation for a Geode robot guarantees
about the obsidian stock. -/
theorem Blueprint.wait_affords_obsidian (b : Blueprint) (r : RobotMap) (s : Storage)
    (w cb : Int) (hw : b.time_to_next_robot Robot.Geode r s = some w)
    (hcb : r.obsidian = some cb) (hcb1 : 1 ≤ cb) : b.geode.2 ≤ s.obsidian + cb * w := by
  have hw0 : 0 ≤ w := b.wait_nonneg _ r s w hw
  unfold Blueprint.time_to_next_robot at hw
  cases ho : r.get Robot.Ore with
  | none => rw [ho] at hw; exact absurd hw (by simp)
  | some co =>
    rw [ho, show r.get Robot.Obsidian = some cb from hcb] at hw
    simp at hw
    exact tdiv_wait _ _ _ _ hcb1 hw0 (by omega)

/-- Bumping keeps every present count at least one. -/
theorem bump_pos (o : Option Int) (h : ∀ c, o = some c → 1 ≤ c) :
    ∀ c, bump o = some c → 1 ≤ c := by
  cases o with
  | none => intro c hc; simp [bump] at hc; omega
  | some x =>
    intro c hc
    simp [bump] at hc
    have := h x rfl
    omega

/-- Clamping to a positive spend keeps every present count at least one. -/
theorem clamp_entry_pos (o : Option Int) (M : Int) (h : ∀ c, o = some c → 1 ≤ c)
    (hM : 1 ≤ M) : ∀ c, clamp_entry o (some M) = some c → 1 ≤ c := by
  cases o with
  | none => intro c hc; simp [clamp_entry] at hc
  | some x =>
    intro c hc
    simp [clamp_entry] at hc
    have := h x rfl
    omega

/-- A clamped entry never exceeds the spend. -/
theorem clamp_entry_cap (o : Option Int) (M : Int) :
    ∀ c, clamp_entry o (some M) = some c → c ≤ M := by
  cases o with
  | none => intro c hc; simp [clamp_entry] at hc
  | some x => intro c hc; simp [clamp_entry] at hc; omega

/-- The defaulted value of a clamped entry never exceeds a nonnegative spend. -/
theorem clamp_entry_getD_cap (o : Option Int) (M : Int) (hM : 0 ≤ M) :
    (clamp_entry o (some M)).getD 0 ≤ M := by
  cases o with
  | none => simpa [clamp_entry] using hM
  | some x => simp [clamp_entry]

/-- The defaulted value of an entry whose present values are positive is
nonnegative. -/
theorem getD_nonneg (o : Option Int) (h : ∀ c, o = some c → 1 ≤ c) : 0 ≤ o.getD 0 := by
  cases o with
  | none => simp
  | some x =>
    have := h x rfl
    simp only [Option.getD_some]
    omega

/-- The invariant of every state on which the search recurses: the Ore entry
is present, every present robot count is positive, non-Geode robot counts are
capped by the blueprint's maximal spend, all stocks are nonnegative, and every
non-Geode stock respects the pruning bound for the remaining minutes. -/
structure Blueprint.Inv (b : Blueprint) (m : Int) (r : RobotMap) (s : Storage) : Prop where
  ore_present : ∃ c, r.ore = some c ∧ 1 ≤ c
  ore_pos : ∀ c, r.ore = some c → 1 ≤ c
  clay_pos : ∀ c, r.clay = some c → 1 ≤ c
  obsidian_pos : ∀ c, r.obsidian = some c → 1 ≤ c
  geode_pos : ∀ c, r.geode = some c → 1 ≤ c
  ore_cap : ∀ c, r.ore = some c → c ≤ b.max_spend.ore.getD 0
  clay_cap : ∀ c, r.clay = some c → c ≤ b.max_spend.clay.getD 0
  obsidian_cap : ∀ c, r.obsidian = some c → c ≤ b.max_spend.obsidian.getD 0
  ore_nonneg : 0 ≤ s.ore
  clay_nonneg : 0 ≤ s.clay
  obsidian_nonneg : 0 ≤ s.obsidian
  geode_nonneg : 0 ≤ s.geode
  ore_bound : s.ore ≤ b.max_spend.ore.getD 0 * m - (m - 1) * r.ore.getD 0
  clay_bound : s.clay ≤ b.max_spend.clay.getD 0 * m - (m - 1) * r.clay.getD 0
  obsidian_bound : s.obsidian ≤ b.max_spend.obsidian.getD 0 * m - (m - 1) * r.obsidian.getD 0

/-- The pruning bound is at least one when the robot count is between zero
and the spend. -/
theorem bound_pos (M d rem : Int) (hM : 1 ≤ M) (hd0 : 0 ≤ d) (hdM : d ≤ M)
    (hrem : 1 ≤ rem) : 1 ≤ M * rem - (rem - 1) * d := by nlinarith

/-- A successful Obsidian wait time needs a Clay entry. -/
theorem Blueprint.wait_obsidian_clay_present (b : Blueprint) (r : RobotMap) (s : Storage)
    (w : Int) (hw : b.time_to_next_robot Robot.Obsidian r s = some w) :
    ∃ cc, r.clay = some cc := by
  unfold Blueprint.time_to_next_robot at hw
  cases ho : r.get Robot.Ore with
  | none => rw [ho] at hw; exact absurd hw (by simp)
  | some co =>
    rw [ho] at hw
    cases hc : r.get Robot.Clay with
    | none => rw [hc] at hw; exact absurd hw (by simp)
    | some cc => exact ⟨cc, hc⟩

/-- A successful Geode wait time needs an Obsidian entry. -/
theorem Blueprint.wait_geode_obsidian_present (b : Blueprint) (r : RobotMap) (s : Storage)
    (w : Int) (hw : b.time_to_next_robot Robot.Geode r s = some w) :
    ∃ cb, r.obsidian = some cb := by
  unfold Blueprint.time_to_next_robot at hw
  cases ho : r.get Robot.Ore with
  | none => rw [ho] at hw; exact absurd hw (by simp)
  | some co =>
    rw [ho] at hw
    cases hc : r.get Robot.Obsidian with
    | none => rw [hc] at hw; exact absurd hw (by simp)
    | some cb => exact ⟨cb, hc⟩

/-- Positivity of present counts survives an optional bump. -/
theorem pos_if_bump (P : Prop) [Decidable P] (o : Option Int) (h : ∀ c, o = some c → 1 ≤ c) :
    ∀ c, (if P then bump o else o) = some c → 1 ≤ c := by
  split
  · exact bump_pos o h
  · exact h

/-- The robot map after `add_robot`, written field by field. -/
theorem RobotMap.add_robot_eq (r : RobotMap) (t : Robot) :
    r.add_robot t =
      { ore := if t = Robot.Ore then bump r.ore else r.ore,
        clay := if t = Robot.Clay then bump r.clay else r.clay,
        obsidian := if t = Robot.Obsidian then bump r.obsidian else r.obsidian,
        geode := if t = Robot.Geode then bump r.geode else r.geode } := by
  cases t <;> simp [RobotMap.add_robot]

/-- Gathering then paying, written field by field. -/
theorem Blueprint.gather_pay_eq (b : Blueprint) (r : RobotMap) (s : Storage) (t : Robot)
    (w : Int) :
    b.pay_for_robot (s.gather r (w + 1)) t =
      { ore := s.ore + (r.ore.getD 0) * (w + 1) - b.get_ore_cost t,
        clay := s.clay + (r.clay.getD 0) * (w + 1) -
          (if t = Robot.Obsidian then b.obsidian.2 else 0),
        obsidian := s.obsidian + (r.obsidian.getD 0) * (w + 1) -
          (if t = Robot.Geode then b.geode.2 else 0),
        geode := s.geode + (r.geode.getD 0) * (w + 1) } := by
  cases t <;> simp [Blueprint.pay_for_robot, Storage.gather, Blueprint.get_ore_cost]

/-- The search invariant is preserved by the state built for a recursive
call. -/
theorem Blueprint.Inv_child (b : Blueprint) (hwf : b.well_formed) (hpos : b.positive)
    (m : Int) (r : RobotMap) (s : Storage) (t : Robot) (w : Int)
    (hInv : b.Inv m r s) (hw : b.time_to_next_robot t r s = some w)
    (hrem : 0 < m - w - 1) :
    b.Inv (m - w - 1) (b.child_state r s t w (m - w - 1)).1
      (b.child_state r s t w (m - w - 1)).2 := by
  obtain ⟨hso, hsc, hsb, hsg⟩ := hwf
  obtain ⟨hb1, hb2, hb3, hb4, hb5, hb6⟩ := hpos
  obtain ⟨co, hco, hco1⟩ := hInv.ore_present
  have hw0 : 0 ≤ w := b.wait_nonneg t r s w hw
  have haff : b.get_ore_cost t ≤ s.ore + co * w := b.wait_affords_ore t r s w co hw hco hco1
  set X : Int := max (max (max b.ore b.clay) b.obsidian.1) b.geode.1 with hX
  have hX1 : 1 ≤ X := by
    rw [hX]
    simp only [le_max_iff]
    exact Or.inl (Or.inl (Or.inl hb1))
  have hgo : b.max_spend.ore.getD 0 = X := by rw [hso]; rfl
  have hgc : b.max_spend.clay.getD 0 = b.obsidian.2 := by rw [hsc]; rfl
  have hgb : b.max_spend.obsidian.getD 0 = b.geode.2 := by rw [hsb]; rfl
  set rem : Int := m - w - 1 with hremdef
  -- the child state, field by field
  have hch1 : (b.child_state r s t w rem).1 =
      { ore := clamp_entry (if t = Robot.Ore then bump r.ore else r.ore) b.max_spend.ore,
        clay := clamp_entry (if t = Robot.Clay then bump r.clay else r.clay) b.max_spend.clay,
        obsidian := clamp_entry (if t = Robot.Obsidian then bump r.obsidian else r.obsidian)
          b.max_spend.obsidian,
        geode := if t = Robot.Geode then bump r.geode else r.geode } := by
    show (b.remove_extra_robots (r.add_robot t)) = _
    rw [RobotMap.add_robot_eq]
    rfl
  have hch2 : (b.child_state r s t w rem).2 =
      b.remove_extra_resources (b.child_state r s t w rem).1
        (b.pay_for_robot (s.gather r (w + 1)) t) rem := rfl
  -- positivity of the child's robot entries
  have hpos_ore : ∀ c, (b.child_state r s t w rem).1.ore = some c → 1 ≤ c := by
    rw [hch1, hso]
    exact clamp_entry_pos _ _ (pos_if_bump _ _ hInv.ore_pos) hX1
  have hpos_clay : ∀ c, (b.child_state r s t w rem).1.clay = some c → 1 ≤ c := by
    rw [hch1, hsc]
    exact clamp_entry_pos _ _ (pos_if_bump _ _ hInv.clay_pos) hb4
  have hpos_obsidian : ∀ c, (b.child_state r s t w rem).1.obsidian = some c → 1 ≤ c := by
    rw [hch1, hsb]
    exact clamp_entry_pos _ _ (pos_if_bump _ _ hInv.obsidian_pos) hb6
  have hpos_geode : ∀ c, (b.child_state r s t w rem).1.geode = some c → 1 ≤ c := by
    rw [hch1]
    exact pos_if_bump _ _ hInv.geode_pos
  -- the child's non-Geode robot counts, defaulted, are within [0, spend]
  have hd_ore_0 : 0 ≤ ((b.child_state r s t w rem).1.ore.getD 0) :=
    getD_nonneg _ hpos_ore
  have hd_clay_0 : 0 ≤ ((b.child_state r s t w rem).1.clay.getD 0) :=
    getD_nonneg _ hpos_clay
  have hd_obsidian_0 : 0 ≤ ((b.child_state r s t w rem).1.obsidian.getD 0) :=
    getD_nonneg _ hpos_obsidian
  have hd_geode_0 : 0 ≤ ((b.child_state r s t w rem).1.geode.getD 0) :=
    getD_nonneg _ hpos_geode
  have hd_ore_cap : ((b.child_state r s t w rem).1.ore.getD 0) ≤ X := by
    rw [hch1, hso]
    exact clamp_entry_getD_cap _ _ (by omega)
  have hd_clay_cap : ((b.child_state r s t w rem).1.clay.getD 0) ≤ b.obsidian.2 := by
    rw [hch1, hsc]
    exact clamp_entry_getD_cap _ _ (by omega)
  have hd_obsidian_cap : ((b.child_state r s t w rem).1.obsidian.getD 0) ≤ b.geode.2 := by
    rw [hch1, hsb]
    exact clamp_entry_getD_cap _ _ (by omega)
  -- gathered-and-paid stocks are nonnegative
  have hro0 : r.ore.getD 0 = co := by rw [hco]; rfl
  have hrc0 : 0 ≤ r.clay.getD 0 := getD_nonneg _ hInv.clay_pos
  have hrb0 : 0 ≤ r.obsidian.getD 0 := getD_nonneg _ hInv.obsidian_pos
  have hrg0 : 0 ≤ r.geode.getD 0 := getD_nonneg _ hInv.geode_pos
  have hpore : 0 ≤ s.ore + (r.ore.getD 0) * (w + 1) - b.get_ore_cost t := by
    rw [hro0]
    have hexp : co * (w + 1) = co * w + co := by ring
    linarith
  have hpclay : 0 ≤ s.clay + (r.clay.getD 0) * (w + 1) -
      (if t = Robot.Obsidian then b.obsidian.2 else 0) := by
    by_cases ht : t = Robot.Obsidian
    · subst ht
      obtain ⟨cc, hcc⟩ := b.wait_obsidian_clay_present r s w hw
      have hcc1 : 1 ≤ cc := hInv.clay_pos cc hcc
      have haffc : b.obsidian.2 ≤ s.clay + cc * w := b.wait_affords_clay r s w cc hw hcc hcc1
      have : r.clay.getD 0 = cc := by rw [hcc]; rfl
      rw [this]
      simp only [eq_self_iff_true, if_true]
      have hexp : cc * (w + 1) = cc * w + cc := by ring
      linarith
    · rw [if_neg ht]
      have := mul_nonneg hrc0 (show (0 : Int) ≤ w + 1 by omega)
      linarith [hInv.clay_nonneg]
  have hpobsidian : 0 ≤ s.obsidian + (r.obsidian.getD 0) * (w + 1) -
      (if t = Robot.Geode then b.geode.2 else 0) := by
    by_cases ht : t = Robot.Geode
    · subst ht
      obtain ⟨cb, hcb⟩ := b.wait_geode_obsidian_present r s w hw
      have hcb1 : 1 ≤ cb := hInv.obsidian_pos cb hcb
      have haffb : b.geode.2 ≤ s.obsidian + cb * w :=
        b.wait_affords_obsidian r s w cb hw hcb hcb1
      have : r.obsidian.getD 0 = cb := by rw [hcb]; rfl
      rw [this]
      simp only [eq_self_iff_true, if_true]
      have hexp : cb * (w + 1) = cb * w + cb := by ring
      linarith
    · rw [if_neg ht]
      have := mul_nonneg hrb0 (show (0 : Int) ≤ w + 1 by omega)
      linarith [hInv.obsidian_nonneg]
  have hpgeode : 0 ≤ s.geode + (r.geode.getD 0) * (w + 1) := by
    have := mul_nonneg hrg0 (show (0 : Int) ≤ w + 1 by omega)
    linarith [hInv.geode_nonneg]
  -- the child's stocks, field by field
  have hst : (b.child_state r s t w rem).2 =
      { ore := min (s.ore + (r.ore.getD 0) * (w + 1) - b.get_ore_cost t)
          (X * rem - (rem - 1) * ((b.child_state r s t w rem).1.ore.getD 0)),
        clay := min (s.clay + (r.clay.getD 0) * (w + 1) -
            (if t = Robot.Obsidian then b.obsidian.2 else 0))
          (b.obsidian.2 * rem - (rem - 1) * ((b.child_state r s t w rem).1.clay.getD 0)),
        obsidian := min (s.obsidian + (r.obsidian.getD 0) * (w + 1) -
            (if t = Robot.Geode then b.geode.2 else 0))
          (b.geode.2 * rem - (rem - 1) * ((b.child_state r s t w rem).1.obsidian.getD 0)),
        geode := s.geode + (r.geode.getD 0) * (w + 1) } := by
    rw [hch2, b.gather_pay_eq]
    show b.remove_extra_resources _ _ rem = _
    unfold Blueprint.remove_extra_resources
    rw [hso, hsc, hsb]
    rfl
  refine ⟨?_, hpos_ore, hpos_clay, hpos_obsidian, hpos_geode, ?_, ?_, ?_, ?_, ?_, ?_, ?_,
    ?_, ?_, ?_⟩
  · -- the Ore entry stays present
    rw [hch1, hso]
    by_cases ht : t = Robot.Ore
    · refine ⟨min (co + 1) X, ?_, le_min (by omega) hX1⟩
      rw [if_pos ht, hco]
      rfl
    · refine ⟨min co X, ?_, le_min hco1 hX1⟩
      rw [if_neg ht, hco]
      rfl
  · intro c hc
    rw [hgo]
    rw [hch1, hso] at hc
    exact clamp_entry_cap _ _ c hc
  · intro c hc
    rw [hgc]
    rw [hch1, hsc] at hc
    exact clamp_entry_cap _ _ c hc
  · intro c hc
    rw [hgb]
    rw [hch1, hsb] at hc
    exact clamp_entry_cap _ _ c hc
  · rw [hst]
    refine le_min hpore ?_
    have hbp := bound_pos X ((b.child_state r s t w rem).1.ore.getD 0) rem hX1 hd_ore_0
      hd_ore_cap (by omega)
    linarith
  · rw [hst]
    refine le_min hpclay ?_
    have hbp := bound_pos b.obsidian.2 ((b.child_state r s t w rem).1.clay.getD 0) rem hb4
      hd_clay_0 hd_clay_cap (by omega)
    linarith
  · rw [hst]
    refine le_min hpobsidian ?_
    have hbp := bound_pos b.geode.2 ((b.child_state r s t w rem).1.obsidian.getD 0) rem hb6
      hd_obsidian_0 hd_obsidian_cap (by omega)
    linarith
  · rw [hst]
    exact hpgeode
  · rw [hgo]
    conv in (b.child_state r s t w rem).2.ore => rw [hst]
    exact min_le_right _ _
  · rw [hgc]
    conv in (b.child_state r s t w rem).2.clay => rw [hst]
    exact min_le_right _ _
  · rw [hgb]
    conv in (b.child_state r s t w rem).2.obsidian => rw [hst]
    exact min_le_right _ _

/-- States on which the search can be invoked when `main` starts it from one
Ore robot, empty storage and a non-negative horizon: the root state, plus
every state built for a recursive call from a reachable state.  (The
`max_spend` skip of source lines 267-275 only removes branches, so this is a
superset of the states the program visits.) -/
inductive Blueprint.Reachable (b : Blueprint) (h : Int) : Int → RobotMap → Storage → Prop
  | init : 0 ≤ h → Blueprint.Reachable b h h starting_robots Storage.new
  | step (m : Int) (r : RobotMap) (s : Storage) (t : Robot) (w : Int) :
      Blueprint.Reachable b h m r s →
      b.time_to_next_robot t r s = some w →
      0 < m - w - 1 →
      Blueprint.Reachable b h (m - w - 1) (b.child_state r s t w (m - w - 1)).1
        (b.child_state r s t w (m - w - 1)).2

/-- The invariant holds at the initial search state. -/
theorem Blueprint.Inv_init (b : Blueprint) (hwf : b.well_formed) (hpos : b.positive)
    (h : Int) (h0 : 0 ≤ h) : b.Inv h starting_robots Storage.new := by
  obtain ⟨hso, hsc, hsb, hsg⟩ := hwf
  obtain ⟨hb1, hb2, hb3, hb4, hb5, hb6⟩ := hpos
  have hgo : b.max_spend.ore.getD 0 = max (max (max b.ore b.clay) b.obsidian.1) b.geode.1 := by
    rw [hso]; rfl
  have hgc : b.max_spend.clay.getD 0 = b.obsidian.2 := by rw [hsc]; rfl
  have hgb : b.max_spend.obsidian.getD 0 = b.geode.2 := by rw [hsb]; rfl
  have hX1 : 1 ≤ max (max (max b.ore b.clay) b.obsidian.1) b.geode.1 := by
    simp only [le_max_iff]
    exact Or.inl (Or.inl (Or.inl hb1))
  refine ⟨⟨1, rfl, le_refl 1⟩, ?_, ?_, ?_, ?_, ?_, ?_, ?_, le_refl 0, le_refl 0, le_refl 0,
    le_refl 0, ?_, ?_, ?_⟩
  · intro cnt hc
    simp [starting_robots] at hc
    omega
  · intro cnt hc
    simp [starting_robots] at hc
  · intro cnt hc
    simp [starting_robots] at hc
  · intro cnt hc
    simp [starting_robots] at hc
  · intro cnt hc
    rw [hgo]
    simp [starting_robots] at hc
    omega
  · intro cnt hc
    simp [starting_robots] at hc
  · intro cnt hc
    simp [starting_robots] at hc
  · show (0 : Int) ≤ _ * h - (h - 1) * ((starting_robots.ore).getD 0)
    rw [hgo]
    show (0 : Int) ≤ _ * h - (h - 1) * 1
    nlinarith
  · show (0 : Int) ≤ _ * h - (h - 1) * ((starting_robots.clay).getD 0)
    rw [hgc]
    show (0 : Int) ≤ _ * h - (h - 1) * 0
    nlinarith
  · show (0 : Int) ≤ _ * h - (h - 1) * ((starting_robots.obsidian).getD 0)
    rw [hgb]
    show (0 : Int) ≤ _ * h - (h - 1) * 0
    nlinarith

/-- Every reachable state satisfies the invariant. -/
theorem Blueprint.Reachable_Inv (b : Blueprint) (hwf : b.well_formed) (hpos : b.positive)
    (h m : Int) (r : RobotMap) (s : Storage) (hr : b.Reachable h m r s) : b.Inv m r s := by
  induction hr with
  | init h0 => exact b.Inv_init hwf hpos h h0
  | step m' r' s' t w _ hw hrem ih => exact b.Inv_child hwf hpos m' r' s' t w ih hw hrem

/-- The weak state invariant: the Ore entry is present, every present robot
count is positive, and all stocks are nonnegative.  Unlike `Blueprint.Inv`
this holds also along the untrimmed search. -/
structure StateOK (r : RobotMap) (s : Storage) : Prop where
  ore_present : ∃ c, r.ore = some c ∧ 1 ≤ c
  ore_pos : ∀ c, r.ore = some c → 1 ≤ c
  clay_pos : ∀ c, r.clay = some c → 1 ≤ c
  obsidian_pos : ∀ c, r.obsidian = some c → 1 ≤ c
  geode_pos : ∀ c, r.geode = some c → 1 ≤ c
  ore_nonneg : 0 ≤ s.ore
  clay_nonneg : 0 ≤ s.clay
  obsidian_nonneg : 0 ≤ s.obsidian
  geode_nonneg : 0 ≤ s.geode

/-- The strong invariant implies the weak one. -/
theorem Blueprint.Inv.toStateOK {b : Blueprint} {m : Int} {r : RobotMap} {s : Storage}
    (h : b.Inv m r s) : StateOK r s :=
  ⟨h.ore_present, h.ore_pos, h.clay_pos, h.obsidian_pos, h.geode_pos, h.ore_nonneg,
    h.clay_nonneg, h.obsidian_nonneg, h.geode_nonneg⟩

/-- After a successful wait, gathering for `wait_time + 1` minutes and then
paying for the robot leaves every stock nonnegative (before the trims run). -/
theorem Blueprint.gather_pay_nonneg (b : Blueprint) (r : RobotMap) (s : Storage)
    (t : Robot) (w : Int) (hInv : StateOK r s) (hw : b.time_to_next_robot t r s = some w) :
    0 ≤ (b.pay_for_robot (s.gather r (w + 1)) t).ore ∧
    0 ≤ (b.pay_for_robot (s.gather r (w + 1)) t).clay ∧
    0 ≤ (b.pay_for_robot (s.gather r (w + 1)) t).obsidian ∧
    0 ≤ (b.pay_for_robot (s.gather r (w + 1)) t).geode := by
  obtain ⟨co, hco, hco1⟩ := hInv.ore_present
  have hw0 : 0 ≤ w := b.wait_nonneg t r s w hw
  have haff : b.get_ore_cost t ≤ s.ore + co * w := b.wait_affords_ore t r s w co hw hco hco1
  have hro0 : r.ore.getD 0 = co := by rw [hco]; rfl
  have hrc0 : 0 ≤ r.clay.getD 0 := getD_nonneg _ hInv.clay_pos
  have hrb0 : 0 ≤ r.obsidian.getD 0 := getD_nonneg _ hInv.obsidian_pos
  have hrg0 : 0 ≤ r.geode.getD 0 := getD_nonneg _ hInv.geode_pos
  rw [b.gather_pay_eq]
  refine ⟨?_, ?_, ?_, ?_⟩
  · show (0 : Int) ≤ s.ore + (r.ore.getD 0) * (w + 1) - b.get_ore_cost t
    rw [hro0]
    have hexp : co * (w + 1) = co * w + co := by ring
    linarith
  · show (0 : Int) ≤ s.clay + (r.clay.getD 0) * (w + 1) -
      (if t = Robot.Obsidian then b.obsidian.2 else 0)
    by_cases ht : t = Robot.Obsidian
    · subst ht
      obtain ⟨cc, hcc⟩ := b.wait_obsidian_clay_present r s w hw
      have hcc1 : 1 ≤ cc := hInv.clay_pos cc hcc
      have haffc : b.obsidian.2 ≤ s.clay + cc * w := b.wait_affords_clay r s w cc hw hcc hcc1
      have hrcc : r.clay.getD 0 = cc := by rw [hcc]; rfl
      rw [hrcc]
      simp only [eq_self_iff_true, if_true]
      have hexp : cc * (w + 1) = cc * w + cc := by ring
      linarith
    · rw [if_neg ht]
      have := mul_nonneg hrc0 (show (0 : Int) ≤ w + 1 by omega)
      linarith [hInv.clay_nonneg]
  · show (0 : Int) ≤ s.obsidian + (r.obsidian.getD 0) * (w + 1) -
      (if t = Robot.Geode then b.geode.2 else 0)
    by_cases ht : t = Robot.Geode
    · subst ht
      obtain ⟨cb, hcb⟩ := b.wait_geode_obsidian_present r s w hw
      have hcb1 : 1 ≤ cb := hInv.obsidian_pos cb hcb
      have haffb : b.geode.2 ≤ s.obsidian + cb * w :=
        b.wait_affords_obsidian r s w cb hw hcb hcb1
      have hrcb : r.obsidian.getD 0 = cb := by rw [hcb]; rfl
      rw [hrcb]
      simp only [eq_self_iff_true, if_true]
      have hexp : cb * (w + 1) = cb * w + cb := by ring
      linarith
    · rw [if_neg ht]
      have := mul_nonneg hrb0 (show (0 : Int) ≤ w + 1 by omega)
      linarith [hInv.obsidian_nonneg]
  · show (0 : Int) ≤ s.geode + (r.geode.getD 0) * (w + 1)
    have := mul_nonneg hrg0 (show (0 : Int) ≤ w + 1 by omega)
    linarith [hInv.geode_nonneg]

/-! ### Claims C5, C9, C10 -/

/-- C5 (amended): for every blueprint built by `Blueprint::new` whose six
parsed costs are all at least 1, in every search state reachable from the
initial state (one Ore producer, empty stock, non-negative horizon) all stocks
and all producer counts are non-negative, paying a producer's cost after
waiting `wait+1` minutes and gathering never drives any stock below zero, and
each non-Geode stock is at most
`max_spend[type] * minutes_remaining - (minutes_remaining - 1) * producers[type]`. -/
theorem C5_reachable_state_invariants (o c oo ocl go gob : Int) (h m : Int) (r : RobotMap)
    (s : Storage) (hpos : (Blueprint.make o c oo ocl go gob).positive)
    (hr : (Blueprint.make o c oo ocl go gob).Reachable h m r s) :
    (0 ≤ s.ore ∧ 0 ≤ s.clay ∧ 0 ≤ s.obsidian ∧ 0 ≤ s.geode) ∧
    (∀ t cnt, r.get t = some cnt → 0 ≤ cnt) ∧
    (∀ t w, (Blueprint.make o c oo ocl go gob).time_to_next_robot t r s = some w →
      0 ≤ ((Blueprint.make o c oo ocl go gob).pay_for_robot
          (s.gather r (w + 1)) t).ore ∧
      0 ≤ ((Blueprint.make o c oo ocl go gob).pay_for_robot
          (s.gather r (w + 1)) t).clay ∧
      0 ≤ ((Blueprint.make o c oo ocl go gob).pay_for_robot
          (s.gather r (w + 1)) t).obsidian ∧
      0 ≤ ((Blueprint.make o c oo ocl go gob).pay_for_robot
          (s.gather r (w + 1)) t).geode) ∧
    s.ore ≤ (Blueprint.make o c oo ocl go gob).max_spend.ore.getD 0 * m -
      (m - 1) * r.ore.getD 0 ∧
    s.clay ≤ (Blueprint.make o c oo ocl go gob).max_spend.clay.getD 0 * m -
      (m - 1) * r.clay.getD 0 ∧
    s.obsidian ≤ (Blueprint.make o c oo ocl go gob).max_spend.obsidian.getD 0 * m -
      (m - 1) * r.obsidian.getD 0 := by
  set b : Blueprint := Blueprint.make o c oo ocl go gob with hb
  have hInv : b.Inv m r s :=
    b.Reachable_Inv (Blueprint.make_well_formed o c oo ocl go gob) hpos h m r s hr
  refine ⟨⟨hInv.ore_nonneg, hInv.clay_nonneg, hInv.obsidian_nonneg, hInv.geode_nonneg⟩,
    ?_, ?_, hInv.ore_bound, hInv.clay_bound, hInv.obsidian_bound⟩
  · intro t cnt hc
    cases t with
    | Ore => exact le_trans (by omega) (hInv.ore_pos cnt hc)
    | Clay => exact le_trans (by omega) (hInv.clay_pos cnt hc)
    | Obsidian => exact le_trans (by omega) (hInv.obsidian_pos cnt hc)
    | Geode => exact le_trans (by omega) (hInv.geode_pos cnt hc)
  · intro t w hw
    exact b.gather_pay_nonneg r s t w hInv.toStateOK hw

/-- Witness for C5 at the first example blueprint, horizon 24, initial state. -/
theorem C5_reachable_state_invariants_witness :
    (0 ≤ Storage.new.ore ∧ 0 ≤ Storage.new.clay ∧ 0 ≤ Storage.new.obsidian ∧
      0 ≤ Storage.new.geode) ∧
    (∀ t cnt, starting_robots.get t = some cnt → 0 ≤ cnt) ∧
    (∀ t w, (Blueprint.make 4 2 3 14 2 7).time_to_next_robot t starting_robots
        Storage.new = some w →
      0 ≤ ((Blueprint.make 4 2 3 14 2 7).pay_for_robot
          (Storage.new.gather starting_robots (w + 1)) t).ore ∧
      0 ≤ ((Blueprint.make 4 2 3 14 2 7).pay_for_robot
          (Storage.new.gather starting_robots (w + 1)) t).clay ∧
      0 ≤ ((Blueprint.make 4 2 3 14 2 7).pay_for_robot
          (Storage.new.gather starting_robots (w + 1)) t).obsidian ∧
      0 ≤ ((Blueprint.make 4 2 3 14 2 7).pay_for_robot
          (Storage.new.gather starting_robots (w + 1)) t).geode) ∧
    Storage.new.ore ≤ (Blueprint.make 4 2 3 14 2 7).max_spend.ore.getD 0 * 24 -
      (24 - 1) * starting_robots.ore.getD 0 ∧
    Storage.new.clay ≤ (Blueprint.make 4 2 3 14 2 7).max_spend.clay.getD 0 * 24 -
      (24 - 1) * starting_robots.clay.getD 0 ∧
    Storage.new.obsidian ≤ (Blueprint.make 4 2 3 14 2 7).max_spend.obsidian.getD 0 * 24 -
      (24 - 1) * starting_robots.obsidian.getD 0 :=
  C5_reachable_state_invariants 4 2 3 14 2 7 24 24 starting_robots Storage.new
    (by refine ⟨?_, ?_, ?_, ?_, ?_, ?_⟩ <;> decide)
    (Blueprint.Reachable.init (by decide))

/-- C5 counterexample: for the all-zero blueprint (which `Blueprint::new`
produces from a line whose costs are all `0`), the initial state at horizon 2
already violates the claimed pruning bound on the Ore stock, so the claim
without a cost hypothesis is false. -/
theorem C5_pruning_bound_counterexample :
    (Blueprint.make 0 0 0 0 0 0).Reachable 2 2 starting_robots Storage.new ∧
    ¬ (Storage.new.ore ≤ (Blueprint.make 0 0 0 0 0 0).max_spend.ore.getD 0 * 2 -
        (2 - 1) * starting_robots.ore.getD 0) :=
  ⟨Blueprint.Reachable.init (by decide), by decide⟩

/-- C10: for every blueprint built by `Blueprint::new` with all six costs at
least 1, in every reachable search state the Ore entry is present, and every
robot count present in the map is strictly positive — so the divisions by
producer counts in `time_to_next_robot` never divide by zero. -/
theorem C10_no_zero_divisors (o c oo ocl go gob : Int) (h m : Int) (r : RobotMap)
    (s : Storage) (hpos : (Blueprint.make o c oo ocl go gob).positive)
    (hr : (Blueprint.make o c oo ocl go gob).Reachable h m r s) :
    (∃ cnt, r.get Robot.Ore = some cnt ∧ 0 < cnt) ∧
    (∀ t cnt, r.get t = some cnt → 0 < cnt) ∧
    (∀ t cnt, r.get t = some cnt → cnt ≠ 0) := by
  have hInv : (Blueprint.make o c oo ocl go gob).Inv m r s :=
    (Blueprint.make o c oo ocl go gob).Reachable_Inv
      (Blueprint.make_well_formed o c oo ocl go gob) hpos h m r s hr
  have hpos' : ∀ t cnt, r.get t = some cnt → 0 < cnt := by
    intro t cnt hc
    cases t with
    | Ore => exact lt_of_lt_of_le (by omega) (hInv.ore_pos cnt hc)
    | Clay => exact lt_of_lt_of_le (by omega) (hInv.clay_pos cnt hc)
    | Obsidian => exact lt_of_lt_of_le (by omega) (hInv.obsidian_pos cnt hc)
    | Geode => exact lt_of_lt_of_le (by omega) (hInv.geode_pos cnt hc)
  obtain ⟨cnt, hc, hc1⟩ := hInv.ore_present
  exact ⟨⟨cnt, hc, by omega⟩, hpos', fun t cnt hc => by have := hpos' t cnt hc; omega⟩

/-- Witness for C10 at the first example blueprint, horizon 24, initial
state. -/
theorem C10_no_zero_divisors_witness :
    (∃ cnt, starting_robots.get Robot.Ore = some cnt ∧ 0 < cnt) ∧
    (∀ t cnt, starting_robots.get t = some cnt → 0 < cnt) ∧
    (∀ t cnt, starting_robots.get t = some cnt → cnt ≠ 0) :=
  C10_no_zero_divisors 4 2 3 14 2 7 24 24 starting_robots Storage.new
    (by refine ⟨?_, ?_, ?_, ?_, ?_, ?_⟩ <;> decide)
    (Blueprint.Reachable.init (by decide))

/-- C9: every blueprint built by `Blueprint::new` has `max_spend` entries for
exactly Ore, Clay and Obsidian and none for Geode, so the
`panic!("Shouldn't happen")` arm of `remove_extra_resources` is unreachable
and the function always returns normally. -/
theorem C9_remove_extra_resources_never_panics (o c oo ocl go gob : Int) :
    ((Blueprint.make o c oo ocl go gob).max_spend.get Robot.Ore).isSome = true ∧
    ((Blueprint.make o c oo ocl go gob).max_spend.get Robot.Clay).isSome = true ∧
    ((Blueprint.make o c oo ocl go gob).max_spend.get Robot.Obsidian).isSome = true ∧
    (Blueprint.make o c oo ocl go gob).max_spend.get Robot.Geode = none ∧
    (∀ (r : RobotMap) (s : Storage) (iterations : Int),
      (Blueprint.make o c oo ocl go gob).remove_extra_resources_checked r s iterations =
        some ((Blueprint.make o c oo ocl go gob).remove_extra_resources r s iterations)) :=
  ⟨rfl, rfl, rfl, rfl, fun _ _ _ => rfl⟩

/-! ### Claims C2 and C7 -/

/-- C2: replacing the memo store with the no-cache variant that always
recomputes yields the same `max_geodes` result for every blueprint, horizon
and state; and two search states with equal cache keys have equal optimal
geode counts. -/
theorem C2_memoization_soundness :
    (∀ (b : Blueprint) (m : Int) (r : RobotMap) (s : Storage),
      b.max_geodes m r s = b.max_geodes_nocache m r s) ∧
    (∀ (b : Blueprint) (k₁ k₂ : SearchKey), k₁ = k₂ →
      b.max_geodes_nocache k₁.minutes_left k₁.robots k₁.storage =
        b.max_geodes_nocache k₂.minutes_left k₂.robots k₂.storage) :=
  ⟨fun b m r s => b.max_geodes_eq_nocache m r s, fun _ _ _ h => by rw [h]⟩

/-- Witness for C2 at the first example blueprint. -/
theorem C2_memoization_soundness_witness :
    (Blueprint.make 4 2 3 14 2 7).max_geodes 3 starting_robots Storage.new =
      (Blueprint.make 4 2 3 14 2 7).max_geodes_nocache 3 starting_robots Storage.new ∧
    (Blueprint.make 4 2 3 14 2 7).max_geodes_nocache 3 starting_robots Storage.new =
      (Blueprint.make 4 2 3 14 2 7).max_geodes_nocache 3 starting_robots Storage.new :=
  ⟨C2_memoization_soundness.1 (Blueprint.make 4 2 3 14 2 7) 3 starting_robots Storage.new,
    C2_memoization_soundness.2 (Blueprint.make 4 2 3 14 2 7)
      ⟨3, starting_robots, Storage.new⟩ ⟨3, starting_robots, Storage.new⟩ rfl⟩

/-- The robot-kind loop of the fuel-counting interpreter: as `search_loop_memo`,
but a child evaluation that runs out of fuel aborts the whole loop. -/
def Blueprint.search_loop_run (b : Blueprint)
    (f : Int → RobotMap → Storage → Memo → Option (Int × Memo)) (minutes_left : Int)
    (robots : RobotMap) (storage : Storage) :
    List Robot → Int × Memo → Option (Int × Memo)
  | [], acc => some acc
  | robot_type :: rest, acc =>
    if b.at_spend_cap robot_type robots then
      b.search_loop_run f minutes_left robots storage rest acc
    else
      match b.time_to_next_robot robot_type robots storage with
      | none => b.search_loop_run f minutes_left robots storage rest acc
      | some wait_time =>
        let remaining_time := minutes_left - wait_time - 1
        if remaining_time ≤ 0 then
          b.search_loop_run f minutes_left robots storage rest acc
        else
          let st := b.child_state robots storage robot_type wait_time remaining_time
          match f remaining_time st.1 st.2 acc.2 with
          | none => none
          | some res =>
            b.search_loop_run f minutes_left robots storage rest (max acc.1 res.1, res.2)

/-- A fuel-counting interpreter of `Blueprint::max_geodes`: it runs the
memoized recursion but answers `none` when the recursion depth would exceed
the given fuel. -/
def Blueprint.max_geodes_run (b : Blueprint) :
    Nat → Int → RobotMap → Storage → Memo → Option (Int × Memo)
  | 0, _, _, _, _ => none
  | fuel + 1, minutes_left, robots, storage, memo =>
    if minutes_left = 0 then some (storage.geode, memo)
    else
      let key : SearchKey := ⟨minutes_left, robots, storage⟩
      match memo.find key with
      | some result => some (result, memo)
      | none =>
        match b.search_loop_run (b.max_geodes_run fuel) minutes_left robots storage
          Robot.all_types (idle_geodes minutes_left robots storage, memo) with
        | none => none
        | some res => some (res.1, res.2.insert key res.1)

/-- The interpreter's loop succeeds and agrees with the memoized loop when
every child evaluation does. -/
theorem Blueprint.search_loop_run_eq (b : Blueprint)
    (f : Int → RobotMap → Storage → Memo → Option (Int × Memo))
    (g : Int → RobotMap → Storage → Memo → Int × Memo) (m : Int) (r : RobotMap)
    (s : Storage)
    (hf : ∀ m' r' s' memo', 0 < m' → m' < m → f m' r' s' memo' = some (g m' r' s' memo')) :
    ∀ l acc, b.search_loop_run f m r s l acc =
      some (b.search_loop_memo g m r s l acc) := by
  intro l
  induction l with
  | nil => intro acc; rfl
  | cons t rest ih =>
    intro acc
    unfold Blueprint.search_loop_run Blueprint.search_loop_memo
    by_cases hcap : b.at_spend_cap t r
    · simp only [hcap, if_true]; exact ih acc
    · simp only [hcap, if_false]
      cases hw : b.time_to_next_robot t r s with
      | none => exact ih acc
      | some w =>
        have hw0 : 0 ≤ w := b.wait_nonneg t r s w hw
        by_cases hrem : m - w - 1 ≤ 0
        · simp only [hrem, if_true]; exact ih acc
        · simp only [hrem, if_false, Bool.false_eq_true]
          rw [hf (m - w - 1) _ _ _ (by omega) (by omega)]
          exact ih _

/-- With fuel strictly above a non-negative `minutes_left`, the interpreter
succeeds and computes exactly what the memoized search computes. -/
theorem Blueprint.max_geodes_run_eq (b : Blueprint) :
    ∀ fuel m r s memo, 0 ≤ m → m.toNat < fuel →
      b.max_geodes_run fuel m r s memo =
        some (b.max_geodes_memo_aux (fuel - 1) m r s memo) := by
  intro fuel
  induction fuel with
  | zero => intro m r s memo hm0 hm; omega
  | succ fuel ih =>
    intro m r s memo hm0 hm
    by_cases hz : m = 0
    · subst hz
      cases fuel with
      | zero => rfl
      | succ fuel => rfl
    · have hm1 : 1 ≤ m := by omega
      have hfuel1 : 1 ≤ fuel := by omega
      obtain ⟨k, rfl⟩ : ∃ k, fuel = k + 1 := ⟨fuel - 1, by omega⟩
      have hf : ∀ m' r' s' memo', 0 < m' → m' < m →
          b.max_geodes_run (k + 1) m' r' s' memo' =
            some (b.max_geodes_memo_aux k m' r' s' memo') := by
        intro m' r' s' memo' h0 hlt
        have h' := ih m' r' s' memo' (by omega) (by omega)
        simpa using h'
      show (if m = 0 then some (s.geode, memo) else _) =
        some (b.max_geodes_memo_aux (k + 1 + 1 - 1) m r s memo)
      have hkk : k + 1 + 1 - 1 = k + 1 := rfl
      rw [hkk, if_neg hz]
      show (match memo.find ⟨m, r, s⟩ with
        | some result => some (result, memo)
        | none =>
          match b.search_loop_run (b.max_geodes_run (k + 1)) m r s Robot.all_types
            (idle_geodes m r s, memo) with
          | none => none
          | some res => some (res.1, res.2.insert ⟨m, r, s⟩ res.1)) = _
      rw [b.search_loop_run_eq (b.max_geodes_run (k + 1)) (b.max_geodes_memo_aux k)
        m r s hf Robot.all_types (idle_geodes m r s, memo)]
      show _ = some (if m = 0 then (s.geode, memo) else _)
      rw [if_neg hz]
      cases hfind : memo.find ⟨m, r, s⟩ with
      | some result => simp [hfind]
      | none => simp [hfind]

/-- C7: the search terminates with recursion depth bounded by `minutes_left`:
the fuel-counting interpreter of `max_geodes`, which answers `none` when the
depth bound is exceeded, succeeds on every fuel strictly above a non-negative
`minutes_left`, for every blueprint, state and cache, and it returns the value
of `max_geodes`. -/
theorem C7_termination_depth_bound (b : Blueprint) (fuel : Nat) (m : Int) (r : RobotMap)
    (s : Storage) (memo : Memo) (hm : 0 ≤ m) (hfuel : m.toNat < fuel) :
    b.max_geodes_run fuel m r s memo = some (b.max_geodes_memo_aux (fuel - 1) m r s memo) ∧
    (b.max_geodes_run fuel m r s Memo.leaf).map Prod.fst = some (b.max_geodes m r s) := by
  refine ⟨b.max_geodes_run_eq fuel m r s memo hm hfuel, ?_⟩
  rw [b.max_geodes_run_eq fuel m r s Memo.leaf hm hfuel]
  have h1 : (b.max_geodes_memo_aux (fuel - 1) m r s Memo.leaf).1 =
      b.max_geodes_nocache m r s :=
    (b.max_geodes_memo_aux_spec (fuel - 1) m r s Memo.leaf (by omega) trivial).1
  simp only [Option.map_some']
  rw [h1, b.max_geodes_eq_nocache]

/-- Witness for C7 at the first example blueprint, horizon 24, fuel 25. -/
theorem C7_termination_depth_bound_witness :
    (Blueprint.make 4 2 3 14 2 7).max_geodes_run 25 24 starting_robots Storage.new
        Memo.leaf =
      some ((Blueprint.make 4 2 3 14 2 7).max_geodes_memo_aux (25 - 1) 24 starting_robots
        Storage.new Memo.leaf) ∧
    ((Blueprint.make 4 2 3 14 2 7).max_geodes_run 25 24 starting_robots Storage.new
        Memo.leaf).map Prod.fst =
      some ((Blueprint.make 4 2 3 14 2 7).max_geodes 24 starting_robots Storage.new) :=
  C7_termination_depth_bound (Blueprint.make 4 2 3 14 2 7) 25 24 starting_robots
    Storage.new Memo.leaf (by decide) (by decide)

/-! ### Claim C8: order independence -/

/-- The candidate value one loop iteration contributes for a robot kind, or
`none` when the branch is skipped. -/
def Blueprint.branch_value (b : Blueprint) (child : Robot → Int → Int → RobotMap × Storage)
    (f : Int → RobotMap → Storage → Int) (minutes_left : Int) (robots : RobotMap)
    (storage : Storage) (robot_type : Robot) : Option Int :=
  if b.at_spend_cap robot_type robots then none
  else
    match b.time_to_next_robot robot_type robots storage with
    | none => none
    | some wait_time =>
      let remaining_time := minutes_left - wait_time - 1
      if remaining_time ≤ 0 then none
      else
        let st := child robot_type wait_time remaining_time
        some (f remaining_time st.1 st.2)

/-- Folding candidate values into a running maximum. -/
def maxfold (g : Robot → Option Int) : List Robot → Int → Int
  | [], a => a
  | t :: rest, a =>
    maxfold g rest
      (match g t with
      | none => a
      | some v => max a v)

/-- The running maximum of candidate values does not depend on the order the
candidates are folded in. -/
theorem maxfold_perm (g : Robot → Option Int) {l₁ l₂ : List Robot} (h : l₁.Perm l₂) :
    ∀ a, maxfold g l₁ a = maxfold g l₂ a := by
  induction h with
  | nil => intro a; rfl
  | cons x _ ih =>
    intro a
    show maxfold g _ _ = maxfold g _ _
    cases g x <;> exact ih _
  | swap x y l =>
    intro a
    show maxfold g l _ = maxfold g l _
    cases hx : g x with
    | none => cases hy : g y <;> simp only [hx, hy]
    | some vx =>
      cases hy : g y with
      | none => simp only [hx, hy]
      | some vy =>
        simp only [hx, hy]
        have hmax : a ⊔ vy ⊔ vx = a ⊔ vx ⊔ vy := by omega
        rw [hmax]
  | trans _ _ ih₁ ih₂ => intro a; rw [ih₁ a, ih₂ a]

/-- The search loop is the fold of its candidate values. -/
theorem Blueprint.search_loop_eq_maxfold (b : Blueprint)
    (child : Robot → Int → Int → RobotMap × Storage) (f : Int → RobotMap → Storage → Int)
    (m : Int) (r : RobotMap) (s : Storage) :
    ∀ l acc, b.search_loop child f m r s l acc =
      maxfold (b.branch_value child f m r s) l acc := by
  intro l
  induction l with
  | nil => intro acc; rfl
  | cons t rest ih =>
    intro acc
    unfold Blueprint.search_loop maxfold Blueprint.branch_value
    by_cases hcap : b.at_spend_cap t r
    · simp only [hcap, if_true]
      exact ih acc
    · simp only [hcap, if_false, Bool.false_eq_true]
      cases hw : b.time_to_next_robot t r s with
      | none => exact ih acc
      | some w =>
        by_cases hrem : m - w - 1 ≤ 0
        · simp only [hrem, if_true]
          exact ih acc
        · simp only [hrem, if_false]
          exact ih _

/-- The search loop is invariant under permuting the explored robot kinds. -/
theorem Blueprint.search_loop_perm (b : Blueprint)
    (child : Robot → Int → Int → RobotMap × Storage) (f : Int → RobotMap → Storage → Int)
    (m : Int) (r : RobotMap) (s : Storage) {l₁ l₂ : List Robot} (h : l₁.Perm l₂)
    (acc : Int) :
    b.search_loop child f m r s l₁ acc = b.search_loop child f m r s l₂ acc := by
  rw [b.search_loop_eq_maxfold, b.search_loop_eq_maxfold]
  exact maxfold_perm _ h acc

/-- The whole fuelled search is invariant under permuting the exploration
order used at every level. -/
theorem Blueprint.search_aux_perm (b : Blueprint)
    (child : RobotMap → Storage → Robot → Int → Int → RobotMap × Storage)
    {l₁ l₂ : List Robot} (h : l₁.Perm l₂) :
    ∀ fuel m r s, b.search_aux child l₁ fuel m r s = b.search_aux child l₂ fuel m r s := by
  intro fuel
  induction fuel with
  | zero => intro m r s; rfl
  | succ fuel ih =>
    intro m r s
    by_cases hz : m = 0
    · simp [Blueprint.search_aux, hz]
    · simp only [Blueprint.search_aux, hz, if_false]
      rw [b.search_loop_congr (child r s) _ _ m r s (fun m' r' s' _ _ => ih m' r' s') l₁ _]
      exact b.search_loop_perm (child r s) _ m r s h _

/-- One entry of the gathering fold: add this robot's production to its
resource. -/
def gather_step (iterations : Int) (acc : Storage) (e : Robot × Int) : Storage :=
  match e.1 with
  | Robot.Ore => { acc with ore := acc.ore + e.2 * iterations }
  | Robot.Clay => { acc with clay := acc.clay + e.2 * iterations }
  | Robot.Obsidian => { acc with obsidian := acc.obsidian + e.2 * iterations }
  | Robot.Geode => { acc with geode := acc.geode + e.2 * iterations }

/-- Gathering written as a fold over an explicit entry list, modelling the
arbitrary iteration order of the robots hash map in `Storage::gather`. -/
def gather_list (s : Storage) (entries : List (Robot × Int)) (iterations : Int) : Storage :=
  entries.foldl (gather_step iterations) s

/-- Two gathering steps commute. -/
theorem gather_step_comm (it : Int) (s : Storage) (e₁ e₂ : Robot × Int) :
    gather_step it (gather_step it s e₁) e₂ = gather_step it (gather_step it s e₂) e₁ := by
  obtain ⟨t₁, v₁⟩ := e₁
  obtain ⟨t₂, v₂⟩ := e₂
  cases t₁ <;> cases t₂ <;> simp [gather_step, add_comm, add_left_comm, add_assoc]

/-- Gathering is invariant under the iteration order of the entries. -/
theorem gather_list_perm {l₁ l₂ : List (Robot × Int)} (h : l₁.Perm l₂) :
    ∀ s iterations, gather_list s l₁ iterations = gather_list s l₂ iterations := by
  induction h with
  | nil => intro s it; rfl
  | cons x _ ih =>
    intro s it
    show gather_list _ _ _ = gather_list _ _ _
    unfold gather_list at ih ⊢
    simp only [List.foldl_cons]
    exact ih _ it
  | swap x y l =>
    intro s it
    show List.foldl _ _ (y :: x :: l) = List.foldl _ _ (x :: y :: l)
    simp only [List.foldl_cons]
    rw [gather_step_comm]
  | trans _ _ ih₁ ih₂ => intro s it; rw [ih₁ s it, ih₂ s it]

/-- C8: for a fixed blueprint and horizon the search result does not depend
on the order the four producer kinds are explored in (any permutation of
`Robot::all_types`, applied at every level, yields the value of `max_geodes`),
nor on the iteration order of the robots hash map during gathering. -/
theorem C8_order_independence :
    (∀ (b : Blueprint) (l : List Robot), l.Perm Robot.all_types →
      ∀ (m : Int) (r : RobotMap) (s : Storage),
        b.max_geodes_order l m r s = b.max_geodes m r s) ∧
    (∀ (s : Storage) (l₁ l₂ : List (Robot × Int)) (iterations : Int), l₁.Perm l₂ →
      gather_list s l₁ iterations = gather_list s l₂ iterations) := by
  constructor
  · intro b l hperm m r s
    rw [b.max_geodes_eq_nocache]
    exact b.search_aux_perm b.child_state hperm m.toNat m r s
  · intro s l₁ l₂ it h
    exact gather_list_perm h s it

/-- Witness for C8: the reversed exploration order at the first example
blueprint, horizon 3, and a two-entry gather list. -/
theorem C8_order_independence_witness :
    (Blueprint.make 4 2 3 14 2 7).max_geodes_order
        [Robot.Geode, Robot.Obsidian, Robot.Clay, Robot.Ore] 3 starting_robots
        Storage.new =
      (Blueprint.make 4 2 3 14 2 7).max_geodes 3 starting_robots Storage.new ∧
    gather_list Storage.new [(Robot.Ore, 1), (Robot.Clay, 2)] 5 =
      gather_list Storage.new [(Robot.Clay, 2), (Robot.Ore, 1)] 5 :=
  ⟨C8_order_independence.1 (Blueprint.make 4 2 3 14 2 7)
      [Robot.Geode, Robot.Obsidian, Robot.Clay, Robot.Ore] (by decide) 3 starting_robots
      Storage.new,
    C8_order_independence.2 Storage.new [(Robot.Ore, 1), (Robot.Clay, 2)]
      [(Robot.Clay, 2), (Robot.Ore, 1)] 5 (List.Perm.swap _ _ _)⟩

/-! ### Claim C4: the wait-time contract -/

/-- The stock of one resource. -/
def stock_of (s : Storage) : Robot → Int
  | Robot.Ore => s.ore
  | Robot.Clay => s.clay
  | Robot.Obsidian => s.obsidian
  | Robot.Geode => s.geode

/-- The resources a robot kind's recipe consumes (Ore and Clay robots cost
only Ore; Obsidian robots cost Ore and Clay; Geode robots cost Ore and
Obsidian). -/
def required_resources : Robot → List Robot
  | Robot.Ore => [Robot.Ore]
  | Robot.Clay => [Robot.Ore]
  | Robot.Obsidian => [Robot.Ore, Robot.Clay]
  | Robot.Geode => [Robot.Ore, Robot.Obsidian]

/-- The amount of a resource consumed by a robot kind's recipe. -/
def Blueprint.recipe_cost (b : Blueprint) : Robot → Robot → Int
  | t, Robot.Ore => b.get_ore_cost t
  | Robot.Obsidian, Robot.Clay => b.obsidian.2
  | Robot.Geode, Robot.Obsidian => b.geode.2
  | _, _ => 0

/-- Modelled from the spec: the claimed condition for `time_to_next_robot` to
answer `None` — some required resource has zero producers and zero stock. -/
def spec_infeasible (t : Robot) (r : RobotMap) (s : Storage) : Prop :=
  ∃ res ∈ required_resources t, (r.get res).getD 0 = 0 ∧ stock_of s res = 0

/-- Mathematical ceiling division for a positive divisor (`/` is Euclidean
division, so `-(-a / r)` rounds up). -/
def ceil_div (a r : Int) : Int := -(-a / r)

/-- Modelled from the spec: the claimed wait-time value — the maximum over
the recipe's required resources of `max 0 ⌈(cost - stock) / rate⌉`. -/
def Blueprint.spec_wait (b : Blueprint) (t : Robot) (r : RobotMap) (s : Storage) : Int :=
  (required_resources t).foldl
    (fun acc res =>
      max acc (max 0 (ceil_div (b.recipe_cost t res - stock_of s res) ((r.get res).getD 0))))
    0

/-- C4 counterexample: with one Ore robot, no Clay entry, and 14 clay already
in storage, the source returns `None` for an Obsidian robot, although no
required resource has both zero producers and zero stock — so "returns `None`
exactly when some required resource has zero producers and zero stock" is
false as stated. -/
theorem C4_none_condition_counterexample :
    (Blueprint.make 4 2 3 14 2 7).time_to_next_robot Robot.Obsidian
        { ore := some 1, clay := none, obsidian := none, geode := none }
        { ore := 0, clay := 14, obsidian := 0, geode := 0 } = none ∧
    ¬ spec_infeasible Robot.Obsidian
        { ore := some 1, clay := none, obsidian := none, geode := none }
        { ore := 0, clay := 14, obsidian := 0, geode := 0 } :=
  ⟨rfl, by unfold spec_infeasible; decide⟩

/-- Rounding up by adding `rate - 1` agrees with the ceiling, as an exact
Euclidean-division identity. -/
theorem ediv_ceil_eq (a rate : Int) (h : 1 ≤ rate) : (a + rate - 1) / rate = -(-a / rate) := by
  have h0 : rate ≠ 0 := by omega
  have hq := Int.ediv_add_emod (-a) rate
  have hmod0 : 0 ≤ -a % rate := Int.emod_nonneg (-a) h0
  have hmodlt : -a % rate < rate := Int.emod_lt_of_pos (-a) (by omega)
  have hnum : a + rate - 1 = (rate - 1 - -a % rate) + rate * (-(-a / rate)) := by linarith
  rw [hnum, Int.add_mul_ediv_left _ _ h0,
    Int.ediv_eq_zero_of_lt (by omega) (by omega)]
  omega

/-- The source's clamped truncating division computes the clamped ceiling. -/
theorem tdiv_ceil_max (a rate : Int) (h : 1 ≤ rate) :
    max 0 (Int.tdiv (a + rate - 1) rate) = max 0 (ceil_div a rate) := by
  unfold ceil_div
  by_cases ha : 0 < a
  · have hn : 0 ≤ a + rate - 1 := by omega
    rw [Int.tdiv_eq_ediv hn (by omega), ediv_ceil_eq a rate h]
  · have h2 : 0 ≤ -a / rate := Int.ediv_nonneg (by omega) (by omega)
    have h1 : Int.tdiv (a + rate - 1) rate ≤ 0 := by
      by_cases hn : 0 ≤ a + rate - 1
      · rw [Int.tdiv_eq_ediv hn (by omega), Int.ediv_eq_zero_of_lt hn (by omega)]
      · have hneg : Int.tdiv (a + rate - 1) rate =
            -Int.tdiv (-(a + rate - 1)) rate := by
          rw [← Int.neg_tdiv, neg_neg]
        rw [hneg]
        have : 0 ≤ Int.tdiv (-(a + rate - 1)) rate :=
          Int.tdiv_nonneg (by omega) (by omega)
        omega
    omega

/-- C4 (amended): on states whose present producer counts are positive (as in
every reachable state), `time_to_next_robot` answers `None` exactly when some
required resource has no producer entry — regardless of its stock — and
otherwise its answer is the maximum over the recipe's required resources of
`max 0 ⌈(cost - stock) / rate⌉`. -/
theorem C4_wait_time_amended (b : Blueprint) (t : Robot) (r : RobotMap) (s : Storage)
    (hpres : ∀ t' cnt, r.get t' = some cnt → 0 < cnt) :
    (b.time_to_next_robot t r s = none ↔
      ∃ res ∈ required_resources t, r.get res = none) ∧
    (∀ w, b.time_to_next_robot t r s = some w → w = b.spec_wait t r s) := by
  cases t with
  | Ore =>
    unfold Blueprint.time_to_next_robot
    cases ho : r.get Robot.Ore with
    | none =>
      refine ⟨⟨fun _ => ⟨Robot.Ore, by simp [required_resources], ho⟩, fun _ => rfl⟩, ?_⟩
      intro w hw
      exact absurd hw (by simp)
    | some co =>
      have hco1 : 0 < co := hpres Robot.Ore co ho
      refine ⟨⟨fun hnone => absurd hnone (by simp), ?_⟩, ?_⟩
      · rintro ⟨res, hres, habs⟩
        simp [required_resources] at hres
        subst hres
        rw [ho] at habs
        exact absurd habs (by simp)
      · intro w hw
        simp only [Option.some.injEq] at hw
        unfold Blueprint.spec_wait
        simp only [required_resources, List.foldl_cons, List.foldl_nil, stock_of,
          Blueprint.recipe_cost, ho, Option.getD_some]
        have heq := tdiv_ceil_max (b.get_ore_cost Robot.Ore - s.ore) co (by omega)
        have hw' : w = max 0 (Int.tdiv (b.get_ore_cost Robot.Ore - s.ore + co - 1) co) := by
          rw [← hw]
        omega
  | Clay =>
    unfold Blueprint.time_to_next_robot
    cases ho : r.get Robot.Ore with
    | none =>
      refine ⟨⟨fun _ => ⟨Robot.Ore, by simp [required_resources], ho⟩, fun _ => rfl⟩, ?_⟩
      intro w hw
      exact absurd hw (by simp)
    | some co =>
      have hco1 : 0 < co := hpres Robot.Ore co ho
      refine ⟨⟨fun hnone => absurd hnone (by simp), ?_⟩, ?_⟩
      · rintro ⟨res, hres, habs⟩
        simp [required_resources] at hres
        subst hres
        rw [ho] at habs
        exact absurd habs (by simp)
      · intro w hw
        simp only [Option.some.injEq] at hw
        unfold Blueprint.spec_wait
        simp only [required_resources, List.foldl_cons, List.foldl_nil, stock_of,
          Blueprint.recipe_cost, ho, Option.getD_some]
        have heq := tdiv_ceil_max (b.get_ore_cost Robot.Clay - s.ore) co (by omega)
        have hw' : w = max 0 (Int.tdiv (b.get_ore_cost Robot.Clay - s.ore + co - 1) co) := by
          rw [← hw]
        omega
  | Obsidian =>
    unfold Blueprint.time_to_next_robot
    cases ho : r.get Robot.Ore with
    | none =>
      refine ⟨⟨fun _ => ⟨Robot.Ore, by simp [required_resources], ho⟩, fun _ => rfl⟩, ?_⟩
      intro w hw
      exact absurd hw (by simp)
    | some co =>
      have hco1 : 0 < co := hpres Robot.Ore co ho
      cases hc : r.get Robot.Clay with
      | none =>
        refine ⟨⟨fun _ => ⟨Robot.Clay, by simp [required_resources], hc⟩, fun _ => rfl⟩, ?_⟩
        intro w hw
        exact absurd hw (by simp)
      | some cc =>
        have hcc1 : 0 < cc := hpres Robot.Clay cc hc
        refine ⟨⟨fun hnone => absurd hnone (by simp), ?_⟩, ?_⟩
        · rintro ⟨res, hres, habs⟩
          simp [required_resources] at hres
          rcases hres with hres | hres <;> subst hres
          · rw [ho] at habs; exact absurd habs (by simp)
          · rw [hc] at habs; exact absurd habs (by simp)
        · intro w hw
          simp only [Option.some.injEq] at hw
          unfold Blueprint.spec_wait
          simp only [required_resources, List.foldl_cons, List.foldl_nil, stock_of,
            Blueprint.recipe_cost, ho, hc, Option.getD_some]
          have heq1 := tdiv_ceil_max (b.get_ore_cost Robot.Obsidian - s.ore) co (by omega)
          have heq2 := tdiv_ceil_max (b.obsidian.2 - s.clay) cc (by omega)
          have hw' : w = max (max 0 (Int.tdiv (b.get_ore_cost Robot.Obsidian - s.ore + co - 1)
              co)) (Int.tdiv (b.obsidian.2 - s.clay + cc - 1) cc) := by
            rw [← hw]
          omega
  | Geode =>
    unfold Blueprint.time_to_next_robot
    cases ho : r.get Robot.Ore with
    | none =>
      refine ⟨⟨fun _ => ⟨Robot.Ore, by simp [required_resources], ho⟩, fun _ => rfl⟩, ?_⟩
      intro w hw
      exact absurd hw (by simp)
    | some co =>
      have hco1 : 0 < co := hpres Robot.Ore co ho
      cases hcb : r.get Robot.Obsidian with
      | none =>
        refine ⟨⟨fun _ => ⟨Robot.Obsidian, by simp [required_resources], hcb⟩,
          fun _ => rfl⟩, ?_⟩
        intro w hw
        exact absurd hw (by simp)
      | some cb =>
        have hcb1 : 0 < cb := hpres Robot.Obsidian cb hcb
        refine ⟨⟨fun hnone => absurd hnone (by simp), ?_⟩, ?_⟩
        · rintro ⟨res, hres, habs⟩
          simp [required_resources] at hres
          rcases hres with hres | hres <;> subst hres
          · rw [ho] at habs; exact absurd habs (by simp)
          · rw [hcb] at habs; exact absurd habs (by simp)
        · intro w hw
          simp only [Option.some.injEq] at hw
          unfold Blueprint.spec_wait
          simp only [required_resources, List.foldl_cons, List.foldl_nil, stock_of,
            Blueprint.recipe_cost, ho, hcb, Option.getD_some]
          have heq1 := tdiv_ceil_max (b.get_ore_cost Robot.Geode - s.ore) co (by omega)
          have heq2 := tdiv_ceil_max (b.geode.2 - s.obsidian) cb (by omega)
          have hw' : w = max (max 0 (Int.tdiv (b.get_ore_cost Robot.Geode - s.ore + co - 1)
              co)) (Int.tdiv (b.geode.2 - s.obsidian + cb - 1) cb) := by
            rw [← hw]
          omega

/-- Witness for C4's amended statement at the initial state of the first
example blueprint. -/
theorem C4_wait_time_amended_witness :
    ((Blueprint.make 4 2 3 14 2 7).time_to_next_robot Robot.Obsidian starting_robots
        Storage.new = none ↔
      ∃ res ∈ required_resources Robot.Obsidian, starting_robots.get res = none) ∧
    (∀ w, (Blueprint.make 4 2 3 14 2 7).time_to_next_robot Robot.Obsidian starting_robots
        Storage.new = some w →
      w = (Blueprint.make 4 2 3 14 2 7).spec_wait Robot.Obsidian starting_robots
        Storage.new) :=
  C4_wait_time_amended (Blueprint.make 4 2 3 14 2 7) Robot.Obsidian starting_robots
    Storage.new (by
      intro t' cnt hc
      cases t' <;> simp [starting_robots, RobotMap.get] at hc
      omega)

/-! ### Claim C1: the optimistic relaxation dominates the search -/

/-- Dominance between relaxation states: the dominating state has at least as
many robots of each tracked kind, at least as much clay and obsidian counting
the amounts already sunk into robots, and at least as many geodes. -/
structure SimLe (Ko Kg : Int) (a b : SimState) : Prop where
  clay_robots_le : a.clay_robots ≤ b.clay_robots
  obsidian_robots_le : a.obsidian_robots ≤ b.obsidian_robots
  geode_robots_le : a.geode_robots ≤ b.geode_robots
  clay_pot_le : a.clay + Ko * a.obsidian_robots ≤ b.clay + Ko * b.obsidian_robots
  obsidian_pot_le : a.obsidian + Kg * a.geode_robots ≤ b.obsidian + Kg * b.geode_robots
  geode_le : a.geode ≤ b.geode

/-- Dominance is transitive. -/
theorem SimLe.trans {Ko Kg : Int} {a b c : SimState} (h₁ : SimLe Ko Kg a b)
    (h₂ : SimLe Ko Kg b c) : SimLe Ko Kg a c :=
  ⟨le_trans h₁.clay_robots_le h₂.clay_robots_le,
    le_trans h₁.obsidian_robots_le h₂.obsidian_robots_le,
    le_trans h₁.geode_robots_le h₂.geode_robots_le,
    le_trans h₁.clay_pot_le h₂.clay_pot_le,
    le_trans h₁.obsidian_pot_le h₂.obsidian_pot_le,
    le_trans h₁.geode_le h₂.geode_le⟩

/-- Componentwise smaller states are dominated. -/
theorem SimLe_of_comp_le (Ko Kg : Int) (hKo : 0 ≤ Ko) (hKg : 0 ≤ Kg) (a b : SimState)
    (h₁ : a.clay ≤ b.clay) (h₂ : a.clay_robots ≤ b.clay_robots)
    (h₃ : a.obsidian ≤ b.obsidian) (h₄ : a.obsidian_robots ≤ b.obsidian_robots)
    (h₅ : a.geode ≤ b.geode) (h₆ : a.geode_robots ≤ b.geode_robots) :
    SimLe Ko Kg a b :=
  ⟨h₂, h₄, h₆, by nlinarith, by nlinarith, h₅⟩

/-- One minute of the relaxation preserves dominance. -/
theorem sim_step_mono (Ko Kg : Int) (hKo : 0 ≤ Ko) (hKg : 0 ≤ Kg) (a b : SimState)
    (h : SimLe Ko Kg a b) : SimLe Ko Kg (sim_step Ko Kg a) (sim_step Ko Kg b) := by
  obtain ⟨h1, h2, h3, h4, h5, h6⟩ := h
  have hindc : a.obsidian_robots + (if Ko ≤ a.clay then 1 else 0) ≤
      b.obsidian_robots + (if Ko ≤ b.clay then 1 else 0) := by
    by_cases hca : Ko ≤ a.clay
    · by_cases hcb : Ko ≤ b.clay
      · rw [if_pos hca, if_pos hcb]; omega
      · rw [if_pos hca, if_neg hcb]
        rcases lt_or_le a.obsidian_robots b.obsidian_robots with hlt | hle
        · omega
        · exfalso
          have hm := mul_le_mul_of_nonneg_left hle hKo
          linarith
    · by_cases hcb : Ko ≤ b.clay
      · rw [if_neg hca, if_pos hcb]; omega
      · rw [if_neg hca, if_neg hcb]; omega
  have hindo : a.geode_robots + (if Kg ≤ a.obsidian then 1 else 0) ≤
      b.geode_robots + (if Kg ≤ b.obsidian then 1 else 0) := by
    by_cases hoa : Kg ≤ a.obsidian
    · by_cases hob : Kg ≤ b.obsidian
      · rw [if_pos hoa, if_pos hob]; omega
      · rw [if_pos hoa, if_neg hob]
        rcases lt_or_le a.geode_robots b.geode_robots with hlt | hle
        · omega
        · exfalso
          have hm := mul_le_mul_of_nonneg_left hle hKg
          linarith
    · by_cases hob : Kg ≤ b.obsidian
      · rw [if_neg hoa, if_pos hob]; omega
      · rw [if_neg hoa, if_neg hob]; omega
  have idac : a.clay + a.clay_robots - (if Ko ≤ a.clay then Ko else 0) +
      Ko * (a.obsidian_robots + (if Ko ≤ a.clay then 1 else 0)) =
      a.clay + a.clay_robots + Ko * a.obsidian_robots := by
    by_cases hca : Ko ≤ a.clay <;> simp [hca] <;> ring
  have idbc : b.clay + b.clay_robots - (if Ko ≤ b.clay then Ko else 0) +
      Ko * (b.obsidian_robots + (if Ko ≤ b.clay then 1 else 0)) =
      b.clay + b.clay_robots + Ko * b.obsidian_robots := by
    by_cases hcb : Ko ≤ b.clay <;> simp [hcb] <;> ring
  have idao : a.obsidian + a.obsidian_robots - (if Kg ≤ a.obsidian then Kg else 0) +
      Kg * (a.geode_robots + (if Kg ≤ a.obsidian then 1 else 0)) =
      a.obsidian + a.obsidian_robots + Kg * a.geode_robots := by
    by_cases hoa : Kg ≤ a.obsidian <;> simp [hoa] <;> ring
  have idbo : b.obsidian + b.obsidian_robots - (if Kg ≤ b.obsidian then Kg else 0) +
      Kg * (b.geode_robots + (if Kg ≤ b.obsidian then 1 else 0)) =
      b.obsidian + b.obsidian_robots + Kg * b.geode_robots := by
    by_cases hob : Kg ≤ b.obsidian <;> simp [hob] <;> ring
  exact
    { clay_robots_le := by show a.clay_robots + 1 ≤ b.clay_robots + 1; omega
      obsidian_robots_le := hindc
      geode_robots_le := hindo
      clay_pot_le := by
        show a.clay + a.clay_robots - _ + Ko * (a.obsidian_robots + _) ≤
          b.clay + b.clay_robots - _ + Ko * (b.obsidian_robots + _)
        rw [idac, idbc]
        linarith
      obsidian_pot_le := by
        show a.obsidian + a.obsidian_robots - _ + Kg * (a.geode_robots + _) ≤
          b.obsidian + b.obsidian_robots - _ + Kg * (b.geode_robots + _)
        rw [idao, idbo]
        linarith
      geode_le := by show a.geode + a.geode_robots ≤ b.geode + b.geode_robots; linarith }

/-- Dominance implies the relaxation's geode count is no smaller, whatever
the remaining time. -/
theorem sim_geodes_mono (Ko Kg : Int) (hKo : 0 ≤ Ko) (hKg : 0 ≤ Kg) :
    ∀ (k : Nat) (a b : SimState), SimLe Ko Kg a b →
      sim_geodes Ko Kg k a ≤ sim_geodes Ko Kg k b := by
  intro k
  induction k with
  | zero => intro a b h; exact h.geode_le
  | succ k ih =>
    intro a b h
    exact ih _ _ (sim_step_mono Ko Kg hKo hKg a b h)

/-- Iterating the relaxation step. -/
def sim_iter (Ko Kg : Int) : Nat → SimState → SimState
  | 0, s => s
  | k + 1, s => sim_iter Ko Kg k (sim_step Ko Kg s)

/-- Iteration commutes with one extra step. -/
theorem sim_iter_succ (Ko Kg : Int) :
    ∀ (k : Nat) (s : SimState),
      sim_iter Ko Kg (k + 1) s = sim_step Ko Kg (sim_iter Ko Kg k s) := by
  intro k
  induction k with
  | zero => intro s; rfl
  | succ k ih =>
    intro s
    show sim_iter Ko Kg (k + 1) (sim_step Ko Kg s) = _
    rw [ih (sim_step Ko Kg s)]
    rfl

/-- The relaxation's geode count after running from an iterated state. -/
theorem sim_geodes_iter (Ko Kg : Int) :
    ∀ (j k : Nat) (s : SimState),
      sim_geodes Ko Kg k (sim_iter Ko Kg j s) = sim_geodes Ko Kg (j + k) s := by
  intro j
  induction j with
  | zero => intro k s; simp [sim_iter]
  | succ j ih =>
    intro k s
    show sim_geodes Ko Kg k (sim_iter Ko Kg j (sim_step Ko Kg s)) = _
    rw [ih k (sim_step Ko Kg s)]
    show sim_geodes Ko Kg (j + k) (sim_step Ko Kg s) = _
    have : j + 1 + k = (j + k) + 1 := by omega
    rw [this]
    rfl

/-- Plain gathering with the current rates for `k` minutes. -/
def sim_gather (k : Nat) (s : SimState) : SimState :=
  { clay := s.clay + k * s.clay_robots, clay_robots := s.clay_robots,
    obsidian := s.obsidian + k * s.obsidian_robots, obsidian_robots := s.obsidian_robots,
    geode := s.geode + k * s.geode_robots, geode_robots := s.geode_robots }

/-- Gathering for `k` minutes without building is dominated by `k` steps of
the relaxation. -/
theorem sim_gather_le_iter (Ko Kg : Int) (hKo : 0 ≤ Ko) (hKg : 0 ≤ Kg) :
    ∀ (k : Nat) (s : SimState), SimLe Ko Kg (sim_gather k s) (sim_iter Ko Kg k s) := by
  intro k
  induction k with
  | zero =>
    intro s
    exact SimLe_of_comp_le Ko Kg hKo hKg _ _ (by simp [sim_gather, sim_iter])
      (by simp [sim_gather, sim_iter]) (by simp [sim_gather, sim_iter])
      (by simp [sim_gather, sim_iter]) (by simp [sim_gather, sim_iter])
      (by simp [sim_gather, sim_iter])
  | succ k ih =>
    intro s
    rw [sim_iter_succ]
    refine SimLe.trans ?_ (sim_step_mono Ko Kg hKo hKg _ _ (ih s))
    -- one more minute of gathering is dominated by one step from the
    -- gathered state
    constructor
    · show s.clay_robots ≤ s.clay_robots + 1
      omega
    · show s.obsidian_robots ≤ s.obsidian_robots + (if Ko ≤ _ then 1 else 0)
      split <;> omega
    · show s.geode_robots ≤ s.geode_robots + (if Kg ≤ _ then 1 else 0)
      split <;> omega
    · show s.clay + (k + 1 : Nat) * s.clay_robots + Ko * s.obsidian_robots ≤
        (sim_gather k s).clay + (sim_gather k s).clay_robots -
          (if Ko ≤ (sim_gather k s).clay then Ko else 0) +
          Ko * (s.obsidian_robots + (if Ko ≤ (sim_gather k s).clay then 1 else 0))
      push_cast
      split <;> ring_nf <;> simp [sim_gather] <;> ring_nf <;> omega
    · show s.obsidian + (k + 1 : Nat) * s.obsidian_robots + Kg * s.geode_robots ≤
        (sim_gather k s).obsidian + (sim_gather k s).obsidian_robots -
          (if Kg ≤ (sim_gather k s).obsidian then Kg else 0) +
          Kg * (s.geode_robots + (if Kg ≤ (sim_gather k s).obsidian then 1 else 0))
      push_cast
      split <;> ring_nf <;> simp [sim_gather] <;> ring_nf <;> omega
    · show s.geode + (k + 1 : Nat) * s.geode_robots ≤
        (sim_gather k s).geode + s.geode_robots
      show _ ≤ s.geode + (k : Nat) * s.geode_robots + s.geode_robots
      push_cast
      ring_nf
      omega

/-- The relaxation's geode count is at least the idle yield. -/
theorem sim_geodes_ge_idle (Ko Kg : Int) :
    ∀ (k : Nat) (s : SimState), 0 ≤ s.geode_robots →
      s.geode + k * s.geode_robots ≤ sim_geodes Ko Kg k s := by
  intro k
  induction k with
  | zero => intro s _; simp [sim_geodes]
  | succ k ih =>
    intro s hg
    have hstep : 0 ≤ (sim_step Ko Kg s).geode_robots := by
      show 0 ≤ s.geode_robots + (if Kg ≤ s.obsidian then 1 else 0)
      split <;> omega
    have h1 := ih (sim_step Ko Kg s) hstep
    show s.geode + ((k : Int) + 1) * s.geode_robots ≤ sim_geodes Ko Kg k (sim_step Ko Kg s)
    have h2 : (sim_step Ko Kg s).geode = s.geode + s.geode_robots := rfl
    have h3 : s.geode_robots ≤ (sim_step Ko Kg s).geode_robots := by
      show s.geode_robots ≤ s.geode_robots + (if Kg ≤ s.obsidian then 1 else 0)
      split <;> omega
    have h4 : (k : Int) * s.geode_robots ≤ (k : Int) * (sim_step Ko Kg s).geode_robots :=
      mul_le_mul_of_nonneg_left h3 (by positivity)
    rw [h2] at h1
    linarith

/-- A clamped stock never exceeds the unclamped stock. -/
theorem clamp_stock_le (stock : Int) (sp cnt : Option Int) (it : Int) :
    clamp_stock stock sp cnt it ≤ stock := by
  cases sp with
  | none => exact le_refl _
  | some v => exact min_le_left _ _

/-- A clamped robot entry never exceeds the unclamped one. -/
theorem clamp_entry_getD_le (o sp : Option Int) :
    (clamp_entry o sp).getD 0 ≤ o.getD 0 := by
  cases o with
  | none => simp [clamp_entry]
  | some v => simp [clamp_entry]

/-- Bumping an entry adds one to its defaulted value. -/
theorem bump_getD (o : Option Int) : (bump o).getD 0 = o.getD 0 + 1 := by
  cases o <;> simp [bump]

/-- Idle geodes written without the match. -/
theorem idle_geodes_eq (m : Int) (r : RobotMap) (s : Storage) :
    idle_geodes m r s = s.geode + (r.geode.getD 0) * m := by
  unfold idle_geodes
  cases h : r.geode <;> simp [h]

/-- The state built for a recursive call is dominated by `wait_time + 1`
steps of the relaxation from the parent state. -/
theorem Blueprint.child_sim_le (b : Blueprint) (m : Int) (r : RobotMap) (s : Storage)
    (t : Robot) (w : Int) (hKo : 0 ≤ b.obsidian.2) (hKg : 0 ≤ b.geode.2)
    (hInv : b.Inv m r s) (hw : b.time_to_next_robot t r s = some w) (rem : Int) :
    SimLe b.obsidian.2 b.geode.2
      (sim_of (b.child_state r s t w rem).1 (b.child_state r s t w rem).2)
      (sim_iter b.obsidian.2 b.geode.2 (w.toNat + 1) (sim_of r s)) := by
  have hw0 : 0 ≤ w := b.wait_nonneg t r s w hw
  have hwcast : ((w.toNat : Int)) = w := Int.toNat_of_nonneg hw0
  -- the pre-trim child state, as a relaxation state
  set B₀ : SimState := sim_of (r.add_robot t) (b.pay_for_robot (s.gather r (w + 1)) t)
    with hB₀
  -- Step A: trimming only lowers every tracked component
  have hA : SimLe b.obsidian.2 b.geode.2
      (sim_of (b.child_state r s t w rem).1 (b.child_state r s t w rem).2) B₀ := by
    refine SimLe_of_comp_le _ _ hKo hKg _ _ ?_ ?_ ?_ ?_ ?_ ?_
    · show (b.remove_extra_resources (b.child_state r s t w rem).1
        (b.pay_for_robot (s.gather r (w + 1)) t) rem).clay ≤ _
      exact clamp_stock_le _ _ _ _
    · show (clamp_entry (r.add_robot t).clay b.max_spend.clay).getD 0 ≤
        ((r.add_robot t).clay).getD 0
      exact clamp_entry_getD_le _ _
    · show (b.remove_extra_resources (b.child_state r s t w rem).1
        (b.pay_for_robot (s.gather r (w + 1)) t) rem).obsidian ≤ _
      exact clamp_stock_le _ _ _ _
    · show (clamp_entry (r.add_robot t).obsidian b.max_spend.obsidian).getD 0 ≤
        ((r.add_robot t).obsidian).getD 0
      exact clamp_entry_getD_le _ _
    · exact le_refl _
    · exact le_refl _
  refine SimLe.trans hA ?_
  -- Step C is step-monotonicity over Step B; establish Step B first
  have hGσ : sim_gather w.toNat (sim_of r s) =
      { clay := s.clay + w * (r.clay.getD 0), clay_robots := r.clay.getD 0,
        obsidian := s.obsidian + w * (r.obsidian.getD 0),
        obsidian_robots := r.obsidian.getD 0,
        geode := s.geode + w * (r.geode.getD 0), geode_robots := r.geode.getD 0 } := by
    unfold sim_gather sim_of
    rw [hwcast]
  have hB : SimLe b.obsidian.2 b.geode.2 B₀
      (sim_step b.obsidian.2 b.geode.2 (sim_gather w.toNat (sim_of r s))) := by
    rw [hGσ, hB₀, RobotMap.add_robot_eq, b.gather_pay_eq]
    constructor
    · show (if t = Robot.Clay then bump r.clay else r.clay).getD 0 ≤ r.clay.getD 0 + 1
      split <;> simp [bump_getD]
    · show (if t = Robot.Obsidian then bump r.obsidian else r.obsidian).getD 0 ≤
        r.obsidian.getD 0 + (if b.obsidian.2 ≤ s.clay + w * (r.clay.getD 0) then 1 else 0)
      by_cases ht : t = Robot.Obsidian
      · rw [if_pos ht, bump_getD]
        subst ht
        obtain ⟨cc, hcc⟩ := b.wait_obsidian_clay_present r s w hw
        have hcc1 : 1 ≤ cc := hInv.clay_pos cc hcc
        have haffc : b.obsidian.2 ≤ s.clay + cc * w := b.wait_affords_clay r s w cc hw hcc hcc1
        have hrcc : r.clay.getD 0 = cc := by rw [hcc]; rfl
        rw [hrcc, if_pos (by linarith [haffc, mul_comm cc w])]
      · rw [if_neg ht]
        split <;> omega
    · show (if t = Robot.Geode then bump r.geode else r.geode).getD 0 ≤
        r.geode.getD 0 + (if b.geode.2 ≤ s.obsidian + w * (r.obsidian.getD 0) then 1 else 0)
      by_cases ht : t = Robot.Geode
      · rw [if_pos ht, bump_getD]
        subst ht
        obtain ⟨cb, hcb⟩ := b.wait_geode_obsidian_present r s w hw
        have hcb1 : 1 ≤ cb := hInv.obsidian_pos cb hcb
        have haffb : b.geode.2 ≤ s.obsidian + cb * w :=
          b.wait_affords_obsidian r s w cb hw hcb hcb1
        have hrcb : r.obsidian.getD 0 = cb := by rw [hcb]; rfl
        rw [hrcb, if_pos (by linarith [haffb, mul_comm cb w])]
      · rw [if_neg ht]
        split <;> omega
    · show s.clay + (r.clay.getD 0) * (w + 1) -
          (if t = Robot.Obsidian then b.obsidian.2 else 0) +
          b.obsidian.2 * ((if t = Robot.Obsidian then bump r.obsidian else r.obsidian).getD 0)
        ≤ s.clay + w * (r.clay.getD 0) + (r.clay.getD 0) -
          (if b.obsidian.2 ≤ s.clay + w * (r.clay.getD 0) then b.obsidian.2 else 0) +
          b.obsidian.2 * ((r.obsidian.getD 0) +
            (if b.obsidian.2 ≤ s.clay + w * (r.clay.getD 0) then 1 else 0))
      have hid : ∀ x y K : Int, ∀ P : Prop, ∀ inst : Decidable P,
          x - (if P then K else 0) + K * (y + (if P then 1 else 0)) = x + K * y := by
        intro x y K P inst
        split <;> ring
      rw [hid]
      by_cases ht : t = Robot.Obsidian
      · rw [if_pos ht, if_pos ht, bump_getD]
        have e1 : (r.clay.getD 0) * (w + 1) = w * (r.clay.getD 0) + r.clay.getD 0 := by ring
        have e2 : b.obsidian.2 * (r.obsidian.getD 0 + 1) =
            b.obsidian.2 * (r.obsidian.getD 0) + b.obsidian.2 := by ring
        linarith
      · rw [if_neg ht, if_neg ht]
        have e1 : (r.clay.getD 0) * (w + 1) = w * (r.clay.getD 0) + r.clay.getD 0 := by ring
        linarith
    · show s.obsidian + (r.obsidian.getD 0) * (w + 1) -
          (if t = Robot.Geode then b.geode.2 else 0) +
          b.geode.2 * ((if t = Robot.Geode then bump r.geode else r.geode).getD 0)
        ≤ s.obsidian + w * (r.obsidian.getD 0) + (r.obsidian.getD 0) -
          (if b.geode.2 ≤ s.obsidian + w * (r.obsidian.getD 0) then b.geode.2 else 0) +
          b.geode.2 * ((r.geode.getD 0) +
            (if b.geode.2 ≤ s.obsidian + w * (r.obsidian.getD 0) then 1 else 0))
      have hid : ∀ x y K : Int, ∀ P : Prop, ∀ inst : Decidable P,
          x - (if P then K else 0) + K * (y + (if P then 1 else 0)) = x + K * y := by
        intro x y K P inst
        split <;> ring
      rw [hid]
      by_cases ht : t = Robot.Geode
      · rw [if_pos ht, if_pos ht, bump_getD]
        have e1 : (r.obsidian.getD 0) * (w + 1) =
            w * (r.obsidian.getD 0) + r.obsidian.getD 0 := by ring
        have e2 : b.geode.2 * (r.geode.getD 0 + 1) =
            b.geode.2 * (r.geode.getD 0) + b.geode.2 := by ring
        linarith
      · rw [if_neg ht, if_neg ht]
        have e1 : (r.obsidian.getD 0) * (w + 1) =
            w * (r.obsidian.getD 0) + r.obsidian.getD 0 := by ring
        linarith
    · show s.geode + (r.geode.getD 0) * (w + 1) ≤
        s.geode + w * (r.geode.getD 0) + (r.geode.getD 0)
      have e1 : (r.geode.getD 0) * (w + 1) = w * (r.geode.getD 0) + r.geode.getD 0 := by
        ring
      linarith
  refine SimLe.trans hB ?_
  rw [sim_iter_succ]
  exact sim_step_mono _ _ hKo hKg _ _
    (sim_gather_le_iter _ _ hKo hKg w.toNat (sim_of r s))

/-- An upper bound for the loop: if the accumulator and every viable
candidate are at most `B`, the loop's result is at most `B`. -/
theorem Blueprint.search_loop_le (b : Blueprint)
    (child : Robot → Int → Int → RobotMap × Storage) (f : Int → RobotMap → Storage → Int)
    (m : Int) (r : RobotMap) (s : Storage) (B : Int)
    (hcand : ∀ t w, b.time_to_next_robot t r s = some w → 0 < m - w - 1 →
      f (m - w - 1) (child t w (m - w - 1)).1 (child t w (m - w - 1)).2 ≤ B) :
    ∀ l acc, acc ≤ B → b.search_loop child f m r s l acc ≤ B := by
  intro l
  induction l with
  | nil => intro acc hacc; exact hacc
  | cons t rest ih =>
    intro acc hacc
    unfold Blueprint.search_loop
    by_cases hcap : b.at_spend_cap t r
    · simp only [hcap, if_true]; exact ih acc hacc
    · simp only [hcap, if_false, Bool.false_eq_true]
      cases hw : b.time_to_next_robot t r s with
      | none => exact ih acc hacc
      | some w =>
        by_cases hrem : m - w - 1 ≤ 0
        · simp only [hrem, if_true]; exact ih acc hacc
        · simp only [hrem, if_false]
          exact ih _ (max_le hacc (hcand t w hw (by omega)))

/-- Admissibility: the (trimmed, no-cache) search never beats the optimistic
relaxation run for the remaining minutes. -/
theorem Blueprint.nocache_le_sim (b : Blueprint) (hwf : b.well_formed) (hpos : b.positive) :
    ∀ fuel m r s, m.toNat ≤ fuel → b.Inv m r s →
      b.search_aux b.child_state Robot.all_types fuel m r s ≤
        sim_geodes b.obsidian.2 b.geode.2 m.toNat (sim_of r s) := by
  have hKo : (0 : Int) ≤ b.obsidian.2 := by
    obtain ⟨_, _, _, h4, _, _⟩ := hpos; omega
  have hKg : (0 : Int) ≤ b.geode.2 := by
    obtain ⟨_, _, _, _, _, h6⟩ := hpos; omega
  intro fuel
  induction fuel with
  | zero =>
    intro m r s hm hInv
    have h0 : m.toNat = 0 := by omega
    rw [h0]
    show (if m = 0 then s.geode else idle_geodes m r s) ≤ (sim_of r s).geode
    by_cases hz : m = 0
    · rw [if_pos hz]; exact le_refl _
    · rw [if_neg hz, idle_geodes_eq]
      have hm0 : m < 0 := by omega
      have hg : 0 ≤ r.geode.getD 0 := getD_nonneg _ hInv.geode_pos
      have : (r.geode.getD 0) * m ≤ 0 := mul_nonpos_of_nonneg_of_nonpos hg (by omega)
      show s.geode + (r.geode.getD 0) * m ≤ s.geode
      linarith
  | succ fuel ih =>
    intro m r s hm hInv
    by_cases hz : m = 0
    · subst hz
      show s.geode ≤ sim_geodes _ _ (0 : Int).toNat (sim_of r s)
      exact le_refl _
    · simp only [Blueprint.search_aux, hz, if_false]
      by_cases hneg : m < 0
      · rw [b.search_loop_skip _ _ m r s (by omega) Robot.all_types _]
        rw [idle_geodes_eq]
        have hg : 0 ≤ r.geode.getD 0 := getD_nonneg _ hInv.geode_pos
        have h1 : (r.geode.getD 0) * m ≤ 0 := mul_nonpos_of_nonneg_of_nonpos hg (by omega)
        have h0 : m.toNat = 0 := by omega
        rw [h0]
        show s.geode + (r.geode.getD 0) * m ≤ (sim_of r s).geode
        show s.geode + (r.geode.getD 0) * m ≤ s.geode
        linarith
      · have hm1 : 1 ≤ m := by omega
        refine b.search_loop_le (b.child_state r s) _ m r s _ ?_ Robot.all_types _ ?_
        · intro t w hw hrem
          have hw0 : 0 ≤ w := b.wait_nonneg t r s w hw
          have hchild := b.Inv_child hwf hpos m r s t w hInv hw hrem
          have h1 := ih (m - w - 1) (b.child_state r s t w (m - w - 1)).1
            (b.child_state r s t w (m - w - 1)).2 (by omega) hchild
          refine le_trans h1 ?_
          have h2 := sim_geodes_mono b.obsidian.2 b.geode.2 hKo hKg (m - w - 1).toNat _ _
            (b.child_sim_le m r s t w hKo hKg hInv hw (m - w - 1))
          refine le_trans h2 ?_
          rw [sim_geodes_iter]
          have h3 : w.toNat + 1 + (m - w - 1).toNat = m.toNat := by omega
          rw [h3]
        · rw [idle_geodes_eq]
          have hg : 0 ≤ r.geode.getD 0 := getD_nonneg _ hInv.geode_pos
          have h1 := sim_geodes_ge_idle b.obsidian.2 b.geode.2 m.toNat (sim_of r s) hg
          have h2 : ((m.toNat : Int)) = m := Int.toNat_of_nonneg (by omega)
          show s.geode + (r.geode.getD 0) * m ≤ _
          rw [← h2]
          have h3 : s.geode + (r.geode.getD 0) * ((m.toNat : Int)) =
              (sim_of r s).geode + (m.toNat : Int) * (sim_of r s).geode_robots := by
            show _ = s.geode + (m.toNat : Int) * (r.geode.getD 0)
            ring
          rw [h3]
          exact h1

/-- With no time left every BB branch is skipped. -/
theorem Blueprint.bb_loop_skip (b : Blueprint) (f : Int → RobotMap → Storage → Int → Int)
    (m : Int) (r : RobotMap) (s : Storage) (hm : m ≤ 0) :
    ∀ l best, b.bb_loop f m r s l best = best := by
  intro l
  induction l with
  | nil => intro best; rfl
  | cons t rest ih =>
    intro best
    unfold Blueprint.bb_loop
    by_cases hcap : b.at_spend_cap t r
    · simp only [hcap, if_true]; exact ih best
    · simp only [hcap, if_false, Bool.false_eq_true]
      cases hw : b.time_to_next_robot t r s with
      | none => exact ih best
      | some w =>
        have hw0 : 0 ≤ w := b.wait_nonneg t r s w hw
        have : m - w - 1 ≤ 0 := by omega
        simp only [this, if_true]
        exact ih best

/-- The BB loop computes the plain loop with the running best as its
accumulator: pruned branches are justified by admissibility of `sim_bound`. -/
theorem Blueprint.bb_loop_spec (b : Blueprint) (hwf : b.well_formed) (hpos : b.positive)
    (fuel : Nat) (m : Int) (r : RobotMap) (s : Storage) (hInv : b.Inv m r s)
    (hmf : m.toNat ≤ fuel + 1)
    (hf : ∀ m' r' s' best, 0 < m' → m' < m → b.Inv m' r' s' →
      b.bb_aux fuel m' r' s' best =
        max best (b.search_aux b.child_state Robot.all_types fuel m' r' s')) :
    ∀ l best, b.bb_loop (b.bb_aux fuel) m r s l best =
      b.search_loop (b.child_state r s)
        (b.search_aux b.child_state Robot.all_types fuel) m r s l best := by
  intro l
  induction l with
  | nil => intro best; rfl
  | cons t rest ih =>
    intro best
    unfold Blueprint.bb_loop Blueprint.search_loop
    by_cases hcap : b.at_spend_cap t r
    · simp only [hcap, if_true]; exact ih best
    · simp only [hcap, if_false, Bool.false_eq_true]
      cases hw : b.time_to_next_robot t r s with
      | none => exact ih best
      | some w =>
        have hw0 : 0 ≤ w := b.wait_nonneg t r s w hw
        by_cases hrem : m - w - 1 ≤ 0
        · simp only [hrem, if_true]; exact ih best
        · simp only [hrem, if_false]
          have hchild := b.Inv_child hwf hpos m r s t w hInv hw (by omega)
          by_cases hcut : b.sim_bound (m - w - 1) (b.child_state r s t w (m - w - 1)).1
              (b.child_state r s t w (m - w - 1)).2 ≤ best
          · simp only [hcut, if_true]
            have hadm := b.nocache_le_sim hwf hpos fuel (m - w - 1)
              (b.child_state r s t w (m - w - 1)).1
              (b.child_state r s t w (m - w - 1)).2 (by omega) hchild
            have hle : b.search_aux b.child_state Robot.all_types fuel (m - w - 1)
                (b.child_state r s t w (m - w - 1)).1
                (b.child_state r s t w (m - w - 1)).2 ≤ best := le_trans hadm hcut
            have hmax : max best (b.search_aux b.child_state Robot.all_types fuel
                (m - w - 1) (b.child_state r s t w (m - w - 1)).1
                (b.child_state r s t w (m - w - 1)).2) = best := max_eq_left hle
            rw [ih best, hmax]
          · simp only [hcut, if_false]
            rw [hf (m - w - 1) _ _ best (by omega) (by omega) hchild]
            exact ih _

/-- The BB evaluator computes `max best` of the no-cache search. -/
theorem Blueprint.bb_aux_spec (b : Blueprint) (hwf : b.well_formed) (hpos : b.positive) :
    ∀ fuel m r s best, m.toNat ≤ fuel → b.Inv m r s →
      b.bb_aux fuel m r s best =
        max best (b.search_aux b.child_state Robot.all_types fuel m r s) := by
  intro fuel
  induction fuel with
  | zero =>
    intro m r s best hm hInv
    show (if m = 0 then max best s.geode else max best (idle_geodes m r s)) =
      max best (if m = 0 then s.geode else idle_geodes m r s)
    by_cases hz : m = 0 <;> simp [hz]
  | succ fuel ih =>
    intro m r s best hm hInv
    by_cases hz : m = 0
    · simp only [Blueprint.bb_aux, Blueprint.search_aux, hz, if_true]
    · simp only [Blueprint.bb_aux, Blueprint.search_aux, hz, if_false]
      by_cases hneg : m < 0
      · rw [b.bb_loop_skip _ m r s (by omega) Robot.all_types _,
          b.search_loop_skip _ _ m r s (by omega) Robot.all_types _]
      · rw [b.bb_loop_spec hwf hpos fuel m r s hInv hm
          (fun m' r' s' best' h0 hlt hInv' => ih m' r' s' best' (by omega) hInv')
          Robot.all_types (max best (idle_geodes m r s))]
        exact b.search_loop_max _ _ m r s Robot.all_types best (idle_geodes m r s)

/-- A nonzero-horizon search value is at least the idle yield. -/
theorem Blueprint.idle_le_nocache (b : Blueprint) (m : Int) (r : RobotMap) (s : Storage)
    (hz : m ≠ 0) : idle_geodes m r s ≤ b.max_geodes_nocache m r s := by
  rw [b.max_geodes_nocache_unfold, if_neg hz]
  exact b.le_search_loop _ _ m r s Robot.all_types _

/-- The memoized search value equals the BB evaluation started at `0`, for
any invariant state with a nonnegative search value. -/
theorem Blueprint.max_geodes_eq_bb (b : Blueprint) (hwf : b.well_formed)
    (hpos : b.positive) (m : Int) (r : RobotMap) (s : Storage) (hInv : b.Inv m r s)
    (hnn : 0 ≤ b.max_geodes_nocache m r s) : b.max_geodes m r s = b.bb m r s 0 := by
  rw [b.max_geodes_eq_nocache]
  show _ = b.bb_aux m.toNat m r s 0
  rw [b.bb_aux_spec hwf hpos m.toNat m r s 0 (le_refl _) hInv]
  exact (max_eq_right hnn).symm

set_option maxRecDepth 8000 in
/-- C1: the worked example. Blueprint 1 (Ore robot 4 ore, Clay robot 2 ore,
Obsidian robot 3 ore and 14 clay, Geode robot 2 ore and 7 obsidian) yields
exactly 9 geodes in 24 minutes from one Ore robot and empty storage; a second
blueprint whose Geode robot costs 2 ore and 12 obsidian (with Ore robot 2 ore,
Clay robot 3 ore, Obsidian robot 3 ore and 8 clay) yields exactly 12; together
they give quality level `1*9 + 2*12 = 33`. -/
theorem C1_concrete_scenario :
    (Blueprint.make 4 2 3 14 2 7).max_geodes 24 starting_robots Storage.new = 9 ∧
    (Blueprint.make 2 3 3 8 2 12).geode = (2, 12) ∧
    (Blueprint.make 2 3 3 8 2 12).max_geodes 24 starting_robots Storage.new = 12 ∧
    1 * (Blueprint.make 4 2 3 14 2 7).max_geodes 24 starting_robots Storage.new +
      2 * (Blueprint.make 2 3 3 8 2 12).max_geodes 24 starting_robots Storage.new = 33 := by
  have hpos1 : (Blueprint.make 4 2 3 14 2 7).positive := by
    refine ⟨?_, ?_, ?_, ?_, ?_, ?_⟩ <;> decide
  have hpos2 : (Blueprint.make 2 3 3 8 2 12).positive := by
    refine ⟨?_, ?_, ?_, ?_, ?_, ?_⟩ <;> decide
  have hInv1 : (Blueprint.make 4 2 3 14 2 7).Inv 24 starting_robots Storage.new :=
    (Blueprint.make 4 2 3 14 2 7).Inv_init (Blueprint.make_well_formed 4 2 3 14 2 7) hpos1
      24 (by omega)
  have hInv2 : (Blueprint.make 2 3 3 8 2 12).Inv 24 starting_robots Storage.new :=
    (Blueprint.make 2 3 3 8 2 12).Inv_init (Blueprint.make_well_formed 2 3 3 8 2 12) hpos2
      24 (by omega)
  have hidle : idle_geodes 24 starting_robots Storage.new = 0 := rfl
  have hnn1 : 0 ≤ (Blueprint.make 4 2 3 14 2 7).max_geodes_nocache 24 starting_robots
      Storage.new := by
    have := (Blueprint.make 4 2 3 14 2 7).idle_le_nocache 24 starting_robots Storage.new
      (by omega)
    omega
  have hnn2 : 0 ≤ (Blueprint.make 2 3 3 8 2 12).max_geodes_nocache 24 starting_robots
      Storage.new := by
    have := (Blueprint.make 2 3 3 8 2 12).idle_le_nocache 24 starting_robots Storage.new
      (by omega)
    omega
  have hbb1 : (Blueprint.make 4 2 3 14 2 7).bb 24 starting_robots Storage.new 0 = 9 := by
    rfl
  have hbb2 : (Blueprint.make 2 3 3 8 2 12).bb 24 starting_robots Storage.new 0 = 12 := by
    rfl
  have h1 : (Blueprint.make 4 2 3 14 2 7).max_geodes 24 starting_robots Storage.new = 9 := by
    rw [(Blueprint.make 4 2 3 14 2 7).max_geodes_eq_bb
      (Blueprint.make_well_formed 4 2 3 14 2 7) hpos1 24 starting_robots Storage.new hInv1
      hnn1, hbb1]
  have h2 : (Blueprint.make 2 3 3 8 2 12).max_geodes 24 starting_robots Storage.new = 12 := by
    rw [(Blueprint.make 2 3 3 8 2 12).max_geodes_eq_bb
      (Blueprint.make_well_formed 2 3 3 8 2 12) hpos2 24 starting_robots Storage.new hInv2
      hnn2, hbb2]
  refine ⟨h1, rfl, h2, ?_⟩
  rw [h1, h2]
  norm_num

/-! ### Trim equivalence (C3) and horizon monotonicity (C6) -/


/-- The defaulted count of a bumped-then-clamped entry. -/
theorem clamp_addentry_getD (o : Option Int) (M : Int) (hM : 0 ≤ M) (P : Prop)
    [Decidable P] :
    (clamp_entry (if P then bump o else o) (some M)).getD 0 =
      min (o.getD 0 + (if P then 1 else 0)) M := by
  rcases em P with hP | hP <;> cases o <;> simp [hP, clamp_entry, bump] <;> omega

/-- The canonicalization applied to every child state by the search with the
trims enabled: clamp the robots, then clamp the stocks for `k` remaining
minutes. -/
def Blueprint.canon (b : Blueprint) (k : Int) (p : RobotMap × Storage) :
    RobotMap × Storage :=
  (b.remove_extra_robots p.1, b.remove_extra_resources (b.remove_extra_robots p.1) p.2 k)

/-- The trimmed child state is the canonicalized untrimmed child state. -/
theorem Blueprint.child_state_eq_canon (b : Blueprint) (r : RobotMap) (s : Storage)
    (t : Robot) (w k : Int) :
    b.child_state r s t w k = b.canon k (b.child_state_untrimmed r s t w k) := rfl

/-- Truncating division by a nonnegative divisor is monotone in the
numerator. -/
theorem tdiv_mono_num (x y d : Int) (hd : 0 ≤ d) (hxy : x ≤ y) :
    Int.tdiv x d ≤ Int.tdiv y d := by
  rcases eq_or_lt_of_le hd with hd0 | hd1
  · rw [← hd0, Int.tdiv_zero, Int.tdiv_zero]
  · rcases le_or_lt 0 x with hx | hx
    · rw [Int.tdiv_eq_ediv hx (by omega), Int.tdiv_eq_ediv (by omega) (by omega)]
      exact Int.ediv_le_ediv hd1 hxy
    · rcases le_or_lt 0 y with hy | hy
      · have h1 : Int.tdiv x d = -Int.tdiv (-x) d := by rw [← Int.neg_tdiv, neg_neg]
        have h2 := Int.tdiv_nonneg (by omega : (0:Int) ≤ -x) (by omega : (0:Int) ≤ d)
        have h3 := Int.tdiv_nonneg hy (by omega : (0:Int) ≤ d)
        omega
      · have h1 : Int.tdiv x d = -Int.tdiv (-x) d := by rw [← Int.neg_tdiv, neg_neg]
        have h2 : Int.tdiv y d = -Int.tdiv (-y) d := by rw [← Int.neg_tdiv, neg_neg]
        rw [Int.tdiv_eq_ediv (by omega : (0:Int) ≤ -x) (by omega)] at h1
        rw [Int.tdiv_eq_ediv (by omega : (0:Int) ≤ -y) (by omega)] at h2
        have h3 := Int.ediv_le_ediv hd1 (by omega : -y ≤ -x)
        omega

/-- Shifting the numerator by `d * k` either shifts the truncated quotient by
exactly `k` or leaves it at most `k`. -/
theorem tdiv_shift_cases (n d k : Int) (hd : 1 ≤ d) (hk : 0 ≤ k) :
    Int.tdiv (n + d * k) d = Int.tdiv n d + k ∨ Int.tdiv (n + d * k) d ≤ k := by
  rcases le_or_lt 0 n with hn | hn
  · left
    rw [Int.tdiv_eq_ediv hn (by omega),
      Int.tdiv_eq_ediv (by nlinarith : (0:Int) ≤ n + d * k) (by omega),
      Int.add_mul_ediv_left n k (by omega : d ≠ 0)]
  · rcases le_or_lt 0 (n + d * k) with hnk | hnk
    · right
      rw [Int.tdiv_eq_ediv hnk (by omega), Int.add_mul_ediv_left n k (by omega : d ≠ 0)]
      have h1 : n / d ≤ 0 / d := Int.ediv_le_ediv (by omega) (by omega)
      rw [Int.zero_ediv] at h1
      omega
    · left
      have h1 : Int.tdiv (n + d * k) d = -Int.tdiv (-(n + d * k)) d := by
        rw [← Int.neg_tdiv, neg_neg]
      have h2 : Int.tdiv n d = -Int.tdiv (-n) d := by rw [← Int.neg_tdiv, neg_neg]
      rw [Int.tdiv_eq_ediv (by omega : (0:Int) ≤ -(n + d * k)) (by omega)] at h1
      rw [Int.tdiv_eq_ediv (by omega : (0:Int) ≤ -n) (by omega)] at h2
      have h3 : -(n + d * k) = -n + d * (-k) := by ring
      rw [h3, Int.add_mul_ediv_left (-n) (-k) (by omega : d ≠ 0)] at h1
      omega

/-- The clamped ore wait term from the smaller stock exceeds the one from the
larger stock by at most the extra minutes. -/
theorem oretime_shift (c s₁ s₂ cnt Δ : Int) (hcnt : 0 ≤ cnt) (hΔ : 0 ≤ Δ)
    (hs : s₁ ≤ s₂ + cnt * Δ) :
    max 0 (Int.tdiv (c - s₂ + cnt - 1) cnt) ≤
      max 0 (Int.tdiv (c - s₁ + cnt - 1) cnt) + Δ := by
  rcases eq_or_lt_of_le hcnt with h0 | h1
  · rw [← h0, Int.tdiv_zero, Int.tdiv_zero]
    omega
  · have hmono : Int.tdiv (c - s₂ + cnt - 1) cnt ≤
        Int.tdiv ((c - s₁ + cnt - 1) + cnt * Δ) cnt :=
      tdiv_mono_num _ _ cnt hcnt (by nlinarith)
    rcases tdiv_shift_cases (c - s₁ + cnt - 1) cnt Δ (by omega) hΔ with h | h <;> omega

/-- The unclamped secondary wait term, combined under the outer `max` with a
nonnegative first term, shifts by at most the extra minutes. -/
theorem secondary_shift (A₁ A₂ c s₁ s₂ cnt Δ : Int) (hA : A₂ ≤ A₁ + Δ) (hA1 : 0 ≤ A₁)
    (hcnt : 0 ≤ cnt) (hΔ : 0 ≤ Δ) (hs : s₁ ≤ s₂ + cnt * Δ) :
    max A₂ (Int.tdiv (c - s₂ + cnt - 1) cnt) ≤
      max A₁ (Int.tdiv (c - s₁ + cnt - 1) cnt) + Δ := by
  rcases eq_or_lt_of_le hcnt with h0 | h1
  · rw [← h0, Int.tdiv_zero, Int.tdiv_zero]
    omega
  · have hmono : Int.tdiv (c - s₂ + cnt - 1) cnt ≤
        Int.tdiv ((c - s₁ + cnt - 1) + cnt * Δ) cnt :=
      tdiv_mono_num _ _ cnt hcnt (by nlinarith)
    rcases tdiv_shift_cases (c - s₁ + cnt - 1) cnt Δ (by omega) hΔ with h | h <;> omega

/-- Whether a wait time exists depends only on the robots map. -/
theorem Blueprint.wait_none_only_robots (b : Blueprint) (t : Robot) (r : RobotMap)
    (s₁ s₂ : Storage) (h : b.time_to_next_robot t r s₁ = none) :
    b.time_to_next_robot t r s₂ = none := by
  unfold Blueprint.time_to_next_robot at h ⊢
  cases ho : r.get Robot.Ore with
  | none => simp [ho]
  | some co =>
    cases t with
    | Ore => exact absurd h (by simp [ho])
    | Clay => exact absurd h (by simp [ho])
    | Obsidian =>
      cases hc : r.get Robot.Clay with
      | none => simp [ho, hc]
      | some cc => exact absurd h (by simp [ho, hc])
    | Geode =>
      cases hc : r.get Robot.Obsidian with
      | none => simp [ho, hc]
      | some cb => exact absurd h (by simp [ho, hc])

/-- With the same robots and stocks related by the extra production of the
extra minutes, wait times shift by at most the extra minutes. -/
theorem Blueprint.wait_some_shift (b : Blueprint) (t : Robot) (r : RobotMap)
    (s₁ s₂ : Storage) (Δ : Int) (hΔ : 0 ≤ Δ)
    (hro : 0 ≤ r.ore.getD 0) (hrc : 0 ≤ r.clay.getD 0) (hrb : 0 ≤ r.obsidian.getD 0)
    (hO : s₁.ore ≤ s₂.ore + r.ore.getD 0 * Δ)
    (hC : s₁.clay ≤ s₂.clay + r.clay.getD 0 * Δ)
    (hB : s₁.obsidian ≤ s₂.obsidian + r.obsidian.getD 0 * Δ)
    (w₁ w₂ : Int) (h₁ : b.time_to_next_robot t r s₁ = some w₁)
    (h₂ : b.time_to_next_robot t r s₂ = some w₂) : w₂ ≤ w₁ + Δ := by
  unfold Blueprint.time_to_next_robot at h₁ h₂
  cases ho : r.get Robot.Ore with
  | none => rw [ho] at h₁; exact absurd h₁ (by simp)
  | some co =>
    rw [ho] at h₁ h₂
    have hcoD : r.ore.getD 0 = co := by rw [show r.ore = some co from ho]; rfl
    rw [hcoD] at hO hro
    have hot := oretime_shift (b.get_ore_cost t) s₁.ore s₂.ore co Δ hro hΔ hO
    cases t with
    | Ore => simp at h₁ h₂; omega
    | Clay => simp at h₁ h₂; omega
    | Obsidian =>
      cases hc : r.get Robot.Clay with
      | none => rw [hc] at h₁; exact absurd h₁ (by simp)
      | some cc =>
        rw [hc] at h₁ h₂
        have hccD : r.clay.getD 0 = cc := by rw [show r.clay = some cc from hc]; rfl
        rw [hccD] at hC hrc
        simp at h₁ h₂
        have hsec := secondary_shift _ _ b.obsidian.2 s₁.clay s₂.clay cc Δ hot
          (le_max_left _ _) hrc hΔ hC
        omega
    | Geode =>
      cases hc : r.get Robot.Obsidian with
      | none => rw [hc] at h₁; exact absurd h₁ (by simp)
      | some cb =>
        rw [hc] at h₁ h₂
        have hcbD : r.obsidian.getD 0 = cb := by rw [show r.obsidian = some cb from hc]; rfl
        rw [hcbD] at hB hrb
        simp at h₁ h₂
        have hsec := secondary_shift _ _ b.geode.2 s₁.obsidian s₂.obsidian cb Δ hot
          (le_max_left _ _) hrb hΔ hB
        omega



/-- The clamp to the pruning bound preserves the delayed-simulation stock
relation for nonnegative spends. -/
theorem clamp_rel_step (M K x₁ x₂ rem₁ rem₂ : Int) (hM : 0 ≤ M) (hK : 0 ≤ K)
    (hrem : rem₁ ≤ rem₂) (hx : x₁ ≤ x₂ + K * (rem₂ - rem₁)) :
    min x₁ (M * rem₁ - (rem₁ - 1) * K) ≤
      min x₂ (M * rem₂ - (rem₂ - 1) * K) + K * (rem₂ - rem₁) := by
  rcases le_or_lt x₂ (M * rem₂ - (rem₂ - 1) * K) with h | h
  · rw [min_eq_left h]
    have h1 := min_le_left x₁ (M * rem₁ - (rem₁ - 1) * K)
    linarith
  · rw [min_eq_right h.le]
    have e : M * rem₂ - (rem₂ - 1) * K + K * (rem₂ - rem₁) -
        (M * rem₁ - (rem₁ - 1) * K) = M * (rem₂ - rem₁) := by ring
    have h2 : 0 ≤ M * (rem₂ - rem₁) := mul_nonneg hM (by omega)
    have h3 := min_le_right x₁ (M * rem₁ - (rem₁ - 1) * K)
    linarith

/-- The gathered-and-paid stock from the earlier state is covered by the one
from the later state plus the child's production over the extra minutes. -/
theorem x_rel_step (cnt K st₁ st₂ cst w₁ w₂ Δ Δp : Int)
    (hΔp : Δp = Δ - (w₂ - w₁)) (hΔp0 : 0 ≤ Δp) (hcntK : cnt ≤ K)
    (hrel : st₁ ≤ st₂ + cnt * Δ) :
    st₁ + cnt * (w₁ + 1) - cst ≤ st₂ + cnt * (w₂ + 1) - cst + K * Δp := by
  have e : st₂ + cnt * (w₂ + 1) - cst + K * Δp - (st₁ + cnt * (w₁ + 1) - cst) =
      (st₂ + cnt * Δ - st₁) + (K - cnt) * Δp := by rw [hΔp]; ring
  have h2 : 0 ≤ (K - cnt) * Δp := mul_nonneg (by omega) hΔp0
  linarith

/-- The defaulted count of an optionally bumped entry. -/
theorem bumpif_getD (o : Option Int) (P : Prop) [Decidable P] :
    (if P then bump o else o).getD 0 = o.getD 0 + (if P then 1 else 0) := by
  split <;> cases o <;> simp [bump]

/-- The two loops of the delayed simulation: with the same robots, stocks of
the later run covering the earlier one, and child values related on branches
viable in both, the earlier loop's value is at most the later one's. -/
theorem Blueprint.search_loop_mono2 (b : Blueprint)
    (child₁ child₂ : Robot → Int → Int → RobotMap × Storage)
    (f : Int → RobotMap → Storage → Int) (m₁ m₂ : Int) (r : RobotMap) (s₁ s₂ : Storage)
    (hm : m₁ ≤ m₂)
    (hpres : ∀ t, b.time_to_next_robot t r s₁ = none →
      b.time_to_next_robot t r s₂ = none)
    (hpres2 : ∀ t, b.time_to_next_robot t r s₂ = none →
      b.time_to_next_robot t r s₁ = none)
    (hshift : ∀ t w₁ w₂, b.time_to_next_robot t r s₁ = some w₁ →
      b.time_to_next_robot t r s₂ = some w₂ → w₂ ≤ w₁ + (m₂ - m₁))
    (hval : ∀ t w₁ w₂, b.time_to_next_robot t r s₁ = some w₁ →
      b.time_to_next_robot t r s₂ = some w₂ →
      0 < m₁ - w₁ - 1 → 0 < m₂ - w₂ - 1 →
      f (m₁ - w₁ - 1) (child₁ t w₁ (m₁ - w₁ - 1)).1 (child₁ t w₁ (m₁ - w₁ - 1)).2 ≤
      f (m₂ - w₂ - 1) (child₂ t w₂ (m₂ - w₂ - 1)).1 (child₂ t w₂ (m₂ - w₂ - 1)).2) :
    ∀ l acc₁ acc₂, acc₁ ≤ acc₂ →
      b.search_loop child₁ f m₁ r s₁ l acc₁ ≤ b.search_loop child₂ f m₂ r s₂ l acc₂ := by
  intro l
  induction l with
  | nil => intro acc₁ acc₂ hacc; exact hacc
  | cons t rest ih =>
    intro acc₁ acc₂ hacc
    unfold Blueprint.search_loop
    by_cases hc : b.at_spend_cap t r
    · simp only [hc, if_true]
      exact ih acc₁ acc₂ hacc
    · simp only [hc, if_false, Bool.false_eq_true]
      cases hw₁ : b.time_to_next_robot t r s₁ with
      | none =>
        rw [hpres t hw₁]
        exact ih acc₁ acc₂ hacc
      | some w₁ =>
        cases hw₂ : b.time_to_next_robot t r s₂ with
        | none => exact absurd (hpres2 t hw₂) (by simp [hw₁])
        | some w₂ =>
          have hws := hshift t w₁ w₂ hw₁ hw₂
          by_cases hr₁ : m₁ - w₁ - 1 ≤ 0
          · simp only [hr₁, if_true]
            by_cases hr₂ : m₂ - w₂ - 1 ≤ 0
            · simp only [hr₂, if_true]
              exact ih acc₁ acc₂ hacc
            · simp only [hr₂, if_false]
              refine ih acc₁ _ (le_trans hacc (le_max_left _ _))
          · simp only [hr₁, if_false]
            have hr₂ : ¬ m₂ - w₂ - 1 ≤ 0 := by omega
            simp only [hr₂, if_false]
            refine ih _ _ ?_
            have hv := hval t w₁ w₂ hw₁ hw₂ (by omega) (by omega)
            omega



/-- The defaulted ore count of the trimmed child robots map. -/
theorem Blueprint.trim_add_getD_ore (b : Blueprint) (Mo : Int)
    (hwo : b.max_spend.ore = some Mo) (hMo : 0 ≤ Mo) (r : RobotMap) (t : Robot) :
    (b.remove_extra_robots (r.add_robot t)).ore.getD 0 =
      min (r.ore.getD 0 + (if t = Robot.Ore then 1 else 0)) Mo := by
  rw [RobotMap.add_robot_eq]
  show (clamp_entry (if t = Robot.Ore then bump r.ore else r.ore)
    b.max_spend.ore).getD 0 = _
  rw [hwo]
  exact clamp_addentry_getD r.ore Mo hMo _

/-- The defaulted clay count of the trimmed child robots map. -/
theorem Blueprint.trim_add_getD_clay (b : Blueprint) (Mc : Int)
    (hwc : b.max_spend.clay = some Mc) (hMc : 0 ≤ Mc) (r : RobotMap) (t : Robot) :
    (b.remove_extra_robots (r.add_robot t)).clay.getD 0 =
      min (r.clay.getD 0 + (if t = Robot.Clay then 1 else 0)) Mc := by
  rw [RobotMap.add_robot_eq]
  show (clamp_entry (if t = Robot.Clay then bump r.clay else r.clay)
    b.max_spend.clay).getD 0 = _
  rw [hwc]
  exact clamp_addentry_getD r.clay Mc hMc _

/-- The defaulted obsidian count of the trimmed child robots map. -/
theorem Blueprint.trim_add_getD_obsidian (b : Blueprint) (Mb : Int)
    (hwb : b.max_spend.obsidian = some Mb) (hMb : 0 ≤ Mb) (r : RobotMap) (t : Robot) :
    (b.remove_extra_robots (r.add_robot t)).obsidian.getD 0 =
      min (r.obsidian.getD 0 + (if t = Robot.Obsidian then 1 else 0)) Mb := by
  rw [RobotMap.add_robot_eq]
  show (clamp_entry (if t = Robot.Obsidian then bump r.obsidian else r.obsidian)
    b.max_spend.obsidian).getD 0 = _
  rw [hwb]
  exact clamp_addentry_getD r.obsidian Mb hMb _

/-- The defaulted geode count of the trimmed child robots map. -/
theorem Blueprint.trim_add_getD_geode (b : Blueprint) (r : RobotMap) (t : Robot) :
    (b.remove_extra_robots (r.add_robot t)).geode.getD 0 =
      r.geode.getD 0 + (if t = Robot.Geode then 1 else 0) := by
  rw [RobotMap.add_robot_eq]
  show (if t = Robot.Geode then bump r.geode else r.geode).getD 0 = _
  exact bumpif_getD r.geode _

/-- The ore stock of the trimmed child state, in closed form. -/
theorem Blueprint.child_state_stock_ore (b : Blueprint) (Mo : Int)
    (hwo : b.max_spend.ore = some Mo) (r : RobotMap) (s : Storage) (t : Robot)
    (w k : Int) :
    (b.child_state r s t w k).2.ore =
      min (s.ore + r.ore.getD 0 * (w + 1) - b.get_ore_cost t)
        (Mo * k - (k - 1) * (b.remove_extra_robots (r.add_robot t)).ore.getD 0) := by
  show clamp_stock (b.pay_for_robot (s.gather r (w + 1)) t).ore b.max_spend.ore
    (b.remove_extra_robots (r.add_robot t)).ore k = _
  rw [hwo, Blueprint.gather_pay_eq]
  simp [clamp_stock]

/-- The clay stock of the trimmed child state, in closed form. -/
theorem Blueprint.child_state_stock_clay (b : Blueprint) (Mc : Int)
    (hwc : b.max_spend.clay = some Mc) (r : RobotMap) (s : Storage) (t : Robot)
    (w k : Int) :
    (b.child_state r s t w k).2.clay =
      min (s.clay + r.clay.getD 0 * (w + 1) -
          (if t = Robot.Obsidian then b.obsidian.2 else 0))
        (Mc * k - (k - 1) * (b.remove_extra_robots (r.add_robot t)).clay.getD 0) := by
  show clamp_stock (b.pay_for_robot (s.gather r (w + 1)) t).clay b.max_spend.clay
    (b.remove_extra_robots (r.add_robot t)).clay k = _
  rw [hwc, Blueprint.gather_pay_eq]
  simp [clamp_stock]

/-- The obsidian stock of the trimmed child state, in closed form. -/
theorem Blueprint.child_state_stock_obsidian (b : Blueprint) (Mb : Int)
    (hwb : b.max_spend.obsidian = some Mb) (r : RobotMap) (s : Storage) (t : Robot)
    (w k : Int) :
    (b.child_state r s t w k).2.obsidian =
      min (s.obsidian + r.obsidian.getD 0 * (w + 1) -
          (if t = Robot.Geode then b.geode.2 else 0))
        (Mb * k - (k - 1) * (b.remove_extra_robots (r.add_robot t)).obsidian.getD 0) := by
  show clamp_stock (b.pay_for_robot (s.gather r (w + 1)) t).obsidian b.max_spend.obsidian
    (b.remove_extra_robots (r.add_robot t)).obsidian k = _
  rw [hwb, Blueprint.gather_pay_eq]
  simp [clamp_stock]

/-- The geode stock of the trimmed child state, in closed form. -/
theorem Blueprint.child_state_stock_geode (b : Blueprint) (r : RobotMap) (s : Storage)
    (t : Robot) (w k : Int) :
    (b.child_state r s t w k).2.geode = s.geode + r.geode.getD 0 * (w + 1) := by
  show (b.pay_for_robot (s.gather r (w + 1)) t).geode = _
  rw [Blueprint.gather_pay_eq]



/-- Delayed simulation: starting the trimmed search with more time and stocks
that the extra minutes of production can cover yields at least the value of
the earlier start, for nonnegative spends. -/
theorem Blueprint.mono_aux (b : Blueprint) (Mo Mc Mb : Int)
    (hwo : b.max_spend.ore = some Mo) (hwc : b.max_spend.clay = some Mc)
    (hwb : b.max_spend.obsidian = some Mb)
    (hMo : 0 ≤ Mo) (hMc : 0 ≤ Mc) (hMb : 0 ≤ Mb) :
    ∀ fuel m₁ m₂ r s₁ s₂, m₂.toNat ≤ fuel → 0 ≤ m₁ → m₁ ≤ m₂ →
      0 ≤ r.ore.getD 0 → 0 ≤ r.clay.getD 0 → 0 ≤ r.obsidian.getD 0 →
      0 ≤ r.geode.getD 0 →
      s₁.ore ≤ s₂.ore + r.ore.getD 0 * (m₂ - m₁) →
      s₁.clay ≤ s₂.clay + r.clay.getD 0 * (m₂ - m₁) →
      s₁.obsidian ≤ s₂.obsidian + r.obsidian.getD 0 * (m₂ - m₁) →
      s₁.geode ≤ s₂.geode + r.geode.getD 0 * (m₂ - m₁) →
      ((r.ore.getD 0 ≤ Mo ∧ r.clay.getD 0 ≤ Mc ∧ r.obsidian.getD 0 ≤ Mb) ∨ s₁ = s₂) →
      b.search_aux b.child_state Robot.all_types fuel m₁ r s₁ ≤
      b.search_aux b.child_state Robot.all_types fuel m₂ r s₂ := by
  intro fuel
  induction fuel with
  | zero =>
    intro m₁ m₂ r s₁ s₂ hf h0 hm hro hrc hrb hrg hO hC hB hG hcap
    have hm10 : m₁ = 0 := by omega
    have hm20 : m₂ = 0 := by omega
    subst hm10
    subst hm20
    show s₁.geode ≤ s₂.geode
    have e : r.geode.getD 0 * ((0:Int) - 0) = 0 := by ring
    omega
  | succ fuel ih =>
    intro m₁ m₂ r s₁ s₂ hf h0 hm hro hrc hrb hrg hO hC hB hG hcap
    by_cases hz₁ : m₁ = 0
    · subst hz₁
      by_cases hz₂ : m₂ = 0
      · subst hz₂
        show s₁.geode ≤ s₂.geode
        have e : r.geode.getD 0 * ((0:Int) - 0) = 0 := by ring
        omega
      · show s₁.geode ≤ b.search_aux b.child_state Robot.all_types (fuel + 1) m₂ r s₂
        simp only [Blueprint.search_aux, hz₂, if_false]
        refine le_trans ?_ (b.le_search_loop _ _ m₂ r s₂ Robot.all_types _)
        rw [idle_geodes_eq]
        have e : r.geode.getD 0 * (m₂ - 0) = r.geode.getD 0 * m₂ := by ring
        omega
    · have hz₂ : ¬ m₂ = 0 := by omega
      have hΔ0 : 0 ≤ m₂ - m₁ := by omega
      simp only [Blueprint.search_aux, hz₁, hz₂, if_false]
      refine b.search_loop_mono2 _ _ _ m₁ m₂ r s₁ s₂ hm
        (fun t => b.wait_none_only_robots t r s₁ s₂)
        (fun t => b.wait_none_only_robots t r s₂ s₁)
        (fun t w₁ w₂ h₁ h₂ => b.wait_some_shift t r s₁ s₂ (m₂ - m₁) hΔ0 hro hrc hrb
          hO hC hB w₁ w₂ h₁ h₂)
        ?_ Robot.all_types _ _ ?_
      · intro t w₁ w₂ h₁ h₂ hr₁ hr₂
        have hw₁0 := b.wait_nonneg t r s₁ w₁ h₁
        have hw₂0 := b.wait_nonneg t r s₂ w₂ h₂
        have hws := b.wait_some_shift t r s₁ s₂ (m₂ - m₁) hΔ0 hro hrc hrb hO hC hB
          w₁ w₂ h₁ h₂
        have hremle : m₁ - w₁ - 1 ≤ m₂ - w₂ - 1 := by omega
        have hfk : (m₂ - w₂ - 1).toNat ≤ fuel := by omega
        have hKo0 : 0 ≤ (b.remove_extra_robots (r.add_robot t)).ore.getD 0 := by
          rw [b.trim_add_getD_ore Mo hwo hMo r t]
          split <;> omega
        have hKc0 : 0 ≤ (b.remove_extra_robots (r.add_robot t)).clay.getD 0 := by
          rw [b.trim_add_getD_clay Mc hwc hMc r t]
          split <;> omega
        have hKb0 : 0 ≤ (b.remove_extra_robots (r.add_robot t)).obsidian.getD 0 := by
          rw [b.trim_add_getD_obsidian Mb hwb hMb r t]
          split <;> omega
        have hKg0 : 0 ≤ (b.remove_extra_robots (r.add_robot t)).geode.getD 0 := by
          rw [b.trim_add_getD_geode r t]
          split <;> omega
        have hweq : s₁ = s₂ → w₁ = w₂ := by
          intro hs
          subst hs
          rw [h₁] at h₂
          exact Option.some.inj h₂
        refine ih (m₁ - w₁ - 1) (m₂ - w₂ - 1) (b.remove_extra_robots (r.add_robot t))
          (b.child_state r s₁ t w₁ (m₁ - w₁ - 1)).2
          (b.child_state r s₂ t w₂ (m₂ - w₂ - 1)).2
          hfk (by omega) hremle hKo0 hKc0 hKb0 hKg0 ?_ ?_ ?_ ?_
          (Or.inl ⟨?_, ?_, ?_⟩)
        · rw [b.child_state_stock_ore Mo hwo r s₁ t w₁ (m₁ - w₁ - 1),
            b.child_state_stock_ore Mo hwo r s₂ t w₂ (m₂ - w₂ - 1)]
          refine clamp_rel_step Mo _ _ _ _ _ hMo hKo0 hremle ?_
          rcases hcap with ⟨hcapO, hcapC, hcapB⟩ | hs
          · refine x_rel_step (r.ore.getD 0) _ _ _ _ _ _ (m₂ - m₁) _ (by omega)
              (by omega) ?_ hO
            rw [b.trim_add_getD_ore Mo hwo hMo r t]
            split <;> omega
          · have hw12 := hweq hs
            subst hs
            subst hw12
            have h2 := mul_nonneg hKo0 (by omega : (0:Int) ≤ (m₂ - w₁ - 1) - (m₁ - w₁ - 1))
            linarith
        · rw [b.child_state_stock_clay Mc hwc r s₁ t w₁ (m₁ - w₁ - 1),
            b.child_state_stock_clay Mc hwc r s₂ t w₂ (m₂ - w₂ - 1)]
          refine clamp_rel_step Mc _ _ _ _ _ hMc hKc0 hremle ?_
          rcases hcap with ⟨hcapO, hcapC, hcapB⟩ | hs
          · refine x_rel_step (r.clay.getD 0) _ _ _ _ _ _ (m₂ - m₁) _ (by omega)
              (by omega) ?_ hC
            rw [b.trim_add_getD_clay Mc hwc hMc r t]
            split <;> omega
          · have hw12 := hweq hs
            subst hs
            subst hw12
            have h2 := mul_nonneg hKc0 (by omega : (0:Int) ≤ (m₂ - w₁ - 1) - (m₁ - w₁ - 1))
            linarith
        · rw [b.child_state_stock_obsidian Mb hwb r s₁ t w₁ (m₁ - w₁ - 1),
            b.child_state_stock_obsidian Mb hwb r s₂ t w₂ (m₂ - w₂ - 1)]
          refine clamp_rel_step Mb _ _ _ _ _ hMb hKb0 hremle ?_
          rcases hcap with ⟨hcapO, hcapC, hcapB⟩ | hs
          · refine x_rel_step (r.obsidian.getD 0) _ _ _ _ _ _ (m₂ - m₁) _ (by omega)
              (by omega) ?_ hB
            rw [b.trim_add_getD_obsidian Mb hwb hMb r t]
            split <;> omega
          · have hw12 := hweq hs
            subst hs
            subst hw12
            have h2 := mul_nonneg hKb0 (by omega : (0:Int) ≤ (m₂ - w₁ - 1) - (m₁ - w₁ - 1))
            linarith
        · rw [b.child_state_stock_geode r s₁ t w₁ (m₁ - w₁ - 1),
            b.child_state_stock_geode r s₂ t w₂ (m₂ - w₂ - 1)]
          rcases hcap with ⟨hcapO, hcapC, hcapB⟩ | hs
          · have := x_rel_step (r.geode.getD 0)
              ((b.remove_extra_robots (r.add_robot t)).geode.getD 0)
              s₁.geode s₂.geode 0 w₁ w₂ (m₂ - m₁)
              ((m₂ - w₂ - 1) - (m₁ - w₁ - 1)) (by omega) (by omega) ?_ hG
            · linarith
            · rw [b.trim_add_getD_geode r t]
              split <;> omega
          · have hw12 := hweq hs
            subst hs
            subst hw12
            have h2 := mul_nonneg hKg0 (by omega : (0:Int) ≤ (m₂ - w₁ - 1) - (m₁ - w₁ - 1))
            linarith
        · rw [b.trim_add_getD_ore Mo hwo hMo r t]
          exact min_le_right _ _
        · rw [b.trim_add_getD_clay Mc hwc hMc r t]
          exact min_le_right _ _
        · rw [b.trim_add_getD_obsidian Mb hwb hMb r t]
          exact min_le_right _ _
      · rw [idle_geodes_eq, idle_geodes_eq]
        have e : r.geode.getD 0 * (m₂ - m₁) + r.geode.getD 0 * m₁ =
            r.geode.getD 0 * m₂ := by ring
        linarith



/-- C6: for every blueprint built by `Blueprint::new` (whose parsed costs are
nonnegative, since `get_int` keeps only digit characters), the optimal geode
count from the initial state (one Ore producer, empty stock) is monotone in
the horizon: `max_geodes h1 <= max_geodes h2` whenever `0 <= h1 <= h2`. -/
theorem C6_horizon_monotonicity (o c oo ocl go gob h₁ h₂ : Int)
    (hnn : 0 ≤ o ∧ 0 ≤ c ∧ 0 ≤ oo ∧ 0 ≤ ocl ∧ 0 ≤ go ∧ 0 ≤ gob)
    (hh : 0 ≤ h₁ ∧ h₁ ≤ h₂) :
    (Blueprint.make o c oo ocl go gob).max_geodes h₁ starting_robots Storage.new ≤
    (Blueprint.make o c oo ocl go gob).max_geodes h₂ starting_robots Storage.new := by
  obtain ⟨h1, h2, h3, h4, h5, h6⟩ := hnn
  obtain ⟨hh1, hh12⟩ := hh
  rw [Blueprint.max_geodes_eq_nocache, Blueprint.max_geodes_eq_nocache]
  unfold Blueprint.max_geodes_nocache
  have hfuel : h₁.toNat ≤ h₂.toNat := by omega
  rw [← (Blueprint.make o c oo ocl go gob).search_aux_fuel
      (Blueprint.make o c oo ocl go gob).child_state Robot.all_types h₂.toNat h₁
      starting_robots Storage.new hfuel]
  refine (Blueprint.make o c oo ocl go gob).mono_aux
    (max (max (max o c) oo) go) ocl gob rfl rfl rfl (by omega) h4 h6
    h₂.toNat h₁ h₂ starting_robots Storage.new Storage.new (le_refl _) hh1 hh12
    ?_ ?_ ?_ ?_ ?_ ?_ ?_ ?_ (Or.inr rfl)
  · show (0:Int) ≤ 1
    omega
  · show (0:Int) ≤ 0
    omega
  · show (0:Int) ≤ 0
    omega
  · show (0:Int) ≤ 0
    omega
  · show (0:Int) ≤ 0 + 1 * (h₂ - h₁)
    omega
  · show (0:Int) ≤ 0 + 0 * (h₂ - h₁)
    omega
  · show (0:Int) ≤ 0 + 0 * (h₂ - h₁)
    omega
  · show (0:Int) ≤ 0 + 0 * (h₂ - h₁)
    omega

/-- Witness for C6: the theorem applied to the all-ones blueprint at horizons
1 and 2. -/
theorem C6_horizon_monotonicity_witness :
    ((0:Int) ≤ 1 ∧ (0:Int) ≤ 1 ∧ (0:Int) ≤ 1 ∧ (0:Int) ≤ 1 ∧ (0:Int) ≤ 1 ∧ (0:Int) ≤ 1) ∧
    ((0:Int) ≤ 1 ∧ (1:Int) ≤ 2) ∧
    (Blueprint.make 1 1 1 1 1 1).max_geodes 1 starting_robots Storage.new ≤
      (Blueprint.make 1 1 1 1 1 1).max_geodes 2 starting_robots Storage.new :=
  ⟨by decide, by decide, C6_horizon_monotonicity 1 1 1 1 1 1 1 2 (by decide) (by decide)⟩



end Day19
